import Mathlib

/-!
# gosquito: the regexpmatch process plugin and the flow scheduler

A shallow embedding of

* `pkg/gosquito/plugins/process/regexpmatch/regexpmatch.go` (`matchRegexes`, `Plugin.Do`, `Init`),
* the scheduling loop of `RunApp` in `pkg/gosquito/cmd.go`,

followed by the properties of the specification that concern them.

Conventions.  A `*core.DataItem` is an address into a heap of items, because `Plugin.Do`
writes through the pointers it is given.  A `reflect.Value` obtained for a field is a reference
to that field: its length and elements are read from the item at the moment of the call.  A Go
panic and an exhausted iteration budget are the two faults of `Except Fault`.
-/

namespace Gosquito

/-! ## Data items -/

/-- Content of a data field that the plugin can match: a Go `string` or a Go `[]string`. -/
inductive FieldValue where
  | str (s : String)
  | slice (xs : List String)
deriving DecidableEq, Repr

/-- Modelled from the spec: `core.DataItem` is not among the sources.  The spec describes it as a
mapping from field name to a value that is either a single text scalar or an ordered sequence of
text scalars; `none` stands for a name that gives no such field (the zero `reflect.Value`, or a
field of another kind), which is what the `switch` of `Plugin.Do` skips. -/
abbrev DataItem := String → Option FieldValue

/-- Modelled from the spec: `core.ReflectDataField` is not among the sources.  It is the
name-indexed dynamic lookup of the spec; `Plugin.Do` ignores its error result. -/
def ReflectDataField (item : DataItem) (name : String) : Option FieldValue :=
  item name

/-- Store through a field reference (`reflect.Value.SetString`, `reflect.Value.Set`). -/
def DataItem.setField (item : DataItem) (name : String) (v : FieldValue) : DataItem :=
  fun n => if n = name then some v else item n

/-- Kind of a field, as `reflect.Value.Kind` reports it. -/
inductive Kind where
  | string
  | slice
  | invalid
deriving DecidableEq, Repr

/-- Kind of what a field lookup gives. -/
def kindOf : Option FieldValue → Kind
  | some (.str _) => .string
  | some (.slice _) => .slice
  | none => .invalid

/-- Address of a data item (`*core.DataItem`). -/
abbrev Ptr := Nat

/-- The items the pointers refer to. -/
abbrev Heap := Ptr → DataItem

/-- Write an item back at its address. -/
def Heap.store (heap : Heap) (ptr : Ptr) (item : DataItem) : Heap :=
  fun q => if q = ptr then item else heap q

/-! ## Regular expressions -/

/-- A compiled `*regexp.Regexp` of the Go standard library, given by its `MatchString`. -/
structure Regexp where
  MatchString : String → Bool

/-- The regexp of a pattern made of ordinary characters only, such as `hello` or `zzz`:
it matches a text that contains the pattern. -/
def literalRegexp (pattern : String) : Regexp :=
  ⟨fun text => text.data.tails.any (fun t => pattern.data.isPrefixOf t)⟩

/-- The regexp of `^` followed by ordinary characters, such as `^a`:
it matches a text that starts with those characters. -/
def anchoredRegexp (pattern : String) : Regexp :=
  ⟨fun text => pattern.data.isPrefixOf text.data⟩

/-- Source: `matchRegexes` (regexpmatch.go:16-24). -/
def matchRegexes : List Regexp → String → Bool
  | [], _ => false
  | re :: rest, text => if re.MatchString text then true else matchRegexes rest text

/-! ## The plugin -/

/-- Source: `type Plugin struct` (regexpmatch.go:26-45). -/
structure Plugin where
  Hash : String
  Flow : String
  ID : Int
  Alias : String
  File : String
  Name : String
  PluginType : String
  Include : Bool
  Require : List Int
  Input : List String
  Output : List String
  MatchAll : Bool
  MatchCase : Bool
  Regexp : List (List Regexp)

/-- Source: `Plugin.GetInclude` (regexpmatch.go:135-137). -/
def Plugin.GetInclude (p : Plugin) : Bool := p.Include

/-- Source: `Plugin.GetRequire` (regexpmatch.go:139-141). -/
def Plugin.GetRequire (p : Plugin) : List Int := p.Require

/-- Why a call did not return. -/
inductive Fault where
  | panic
  | outOfFuel
deriving DecidableEq, Repr

/-- Source: the loop over the elements of a `[]string` field (regexpmatch.go:82-89).
`ri` is the reference to field `input` and `ro` the reference to field `output` of the same
item, so `ri.Len()` and `ri.Index(i)` are read from the item as it is now.  The loop has no
bound other than `ri.Len()`; `fuel` counts the evaluations of its condition. -/
def sliceLoop (p : Plugin) (index : Nat) (input : String) (ro : Option String) :
    Nat → DataItem → Nat → Bool → Except Fault (DataItem × Bool)
  | 0, _, _, _ => .error .outOfFuel
  | fuel + 1, item, i, somethingWasMatched =>
    match ReflectDataField item input with
    | some (.slice xs) =>
      if h : i < xs.length then
        match p.Regexp[index]? with
        | none => .error .panic
        | some res =>
          if matchRegexes res xs[i] then
            match ro with
            | none => sliceLoop p index input ro fuel item (i + 1) true
            | some output =>
              match ReflectDataField item output with
              | some (.slice ys) =>
                sliceLoop p index input ro fuel
                  (item.setField output (.slice (ys ++ [xs[i]]))) (i + 1) true
              | _ => .error .panic
          else sliceLoop p index input ro fuel item (i + 1) somethingWasMatched
      else .ok (item, somethingWasMatched)
    | _ => .error .panic

/-- Source: the body of the loop over `p.Input` (regexpmatch.go:60-92) for one `index, input`.
`matched` is the `[]bool` of line 56. -/
def doIndex (fuel : Nat) (p : Plugin) (index : Nat) (input : String)
    (item : DataItem) (matched : List Bool) : Except Fault (DataItem × List Bool) :=
  -- lines 66-68: `ro` is taken only when `len(p.Output) > 0`; `p.Output[index]` may panic
  match (if p.Output.length > 0 then (p.Output[index]?).map some else some none) with
  | none => .error .panic
  | some ro =>
    match ReflectDataField item input with
    | some (.str s) =>
      match p.Regexp[index]? with
      | none => .error .panic
      | some res =>
        if matchRegexes res s then
          match ro with
          | none => .ok (item, matched.set index true)
          | some output =>
            match ReflectDataField item output with
            | some (.str _) => .ok (item.setField output (.str s), matched.set index true)
            | _ => .error .panic
        else .ok (item, matched)
    | some (.slice _) =>
      match sliceLoop p index input ro fuel item 0 false with
      | .error e => .error e
      | .ok (item', somethingWasMatched) => .ok (item', matched.set index somethingWasMatched)
    | none => .ok (item, matched)

/-- Source: `for index, input := range p.Input` (regexpmatch.go:59-93). -/
def inputLoop (fuel : Nat) (p : Plugin) :
    List String → Nat → DataItem → List Bool → Except Fault (DataItem × List Bool)
  | [], _, item, matched => .ok (item, matched)
  | input :: rest, index, item, matched =>
    match doIndex fuel p index input item matched with
    | .error e => .error e
    | .ok (item', matched') => inputLoop fuel p rest (index + 1) item' matched'

/-- Source: `for _, b := range matched` (regexpmatch.go:96-105); the pair is
`(matchedInSomeInputs, matchedInAllInputs)`. -/
def matchedFlags : List Bool → Bool × Bool → Bool × Bool
  | [], acc => acc
  | b :: rest, (someInputs, allInputs) =>
    if b then matchedFlags rest (true, allInputs) else matchedFlags rest (someInputs, false)

/-- Source: the condition of regexpmatch.go:107. -/
def keepItem (p : Plugin) (matched : List Bool) : Bool :=
  let flags := matchedFlags matched (false, true)
  (p.MatchAll && flags.2) || (!p.MatchAll && flags.1)

/-- Source: `for _, item := range data` (regexpmatch.go:55-110). -/
def dataLoop (fuel : Nat) (p : Plugin) :
    List Ptr → Heap → List Ptr → Except Fault (List Ptr × Heap)
  | [], heap, temp => .ok (temp, heap)
  | ptr :: rest, heap, temp =>
    match inputLoop fuel p p.Input 0 (heap ptr) (List.replicate p.Input.length false) with
    | .error e => .error e
    | .ok (item', matched) =>
      if keepItem p matched then dataLoop fuel p rest (heap.store ptr item') (temp ++ [ptr])
      else dataLoop fuel p rest (heap.store ptr item') temp

/-- Source: `Plugin.Do` (regexpmatch.go:47-113).  The result is the returned slice of pointers
together with the heap the call leaves behind. -/
def Plugin.Do (fuel : Nat) (p : Plugin) (heap : Heap) (data : List Ptr) :
    Except Fault (List Ptr × Heap) :=
  if data.length = 0 then .ok ([], heap) else dataLoop fuel p data heap []

/-- The slice `Plugin.Do` returns, when it returns. -/
def returned (r : Except Fault (List Ptr × Heap)) : Option (List Ptr) :=
  match r with
  | .ok (temp, _) => some temp
  | .error _ => none

/-- A field of an item after `Plugin.Do`, when it returns. -/
def fieldAfter (r : Except Fault (List Ptr × Heap)) (ptr : Ptr) (name : String) :
    Option (Option FieldValue) :=
  match r with
  | .ok (_, heap) => some (heap ptr name)
  | .error _ => none


/-! ## Construction of the plugin -/

/-- A value of the plugin's parameter map (Go `interface{}`). -/
inductive ParamValue where
  | bool (b : Bool)
  | strings (xs : List String)
  | ints (xs : List Int)
  | other
deriving DecidableEq, Repr

/-- The parameter map `*pluginConfig.Params`, as the list of its entries. -/
abbrev Params := List (String × ParamValue)

/-- Reading `(*pluginConfig.Params)[key]`; `none` is an absent key (a nil interface). -/
def Params.get (m : Params) (key : String) : Option ParamValue :=
  m.lookup key

/-- Modelled from the spec: `core.IsBool` is not among the sources; it tells whether a typed
parameter is a boolean and gives its value. -/
def IsBool : Option ParamValue → Option Bool
  | some (.bool b) => some b
  | _ => none

/-- Modelled from the spec: `core.IsSliceOfString` is not among the sources; it tells whether a
typed parameter is a list of strings and gives it. -/
def IsSliceOfString : Option ParamValue → Option (List String)
  | some (.strings xs) => some xs
  | _ => none

/-- Modelled from the spec: `core.IsSliceOfInt` is not among the sources; it tells whether a
typed parameter is a list of integers and gives it. -/
def IsSliceOfInt : Option ParamValue → Option (List Int)
  | some (.ints xs) => some xs
  | _ => none

/-- The map `availableParams` (Go `map[string]int`), as the list of its entries. -/
abbrev AvailableParams := List (String × Int)

/-- Reading `availableParams[key]`: an absent key reads as `0`. -/
def AvailableParams.get (m : AvailableParams) (key : String) : Int :=
  (m.lookup key).getD 0

/-- Assignment `availableParams[key] = v`. -/
def AvailableParams.put (m : AvailableParams) (key : String) (v : Int) : AvailableParams :=
  (key, v) :: m.filter (fun e => e.1 ≠ key)

/-- Source: `pluginConfig *core.PluginConfig` as `Init` reads it (regexpmatch.go:143-262).
`DefaultInclude` is `pluginConfig.Config.GetBool(core.VIPER_DEFAULT_PLUGIN_INCLUDE)`. -/
structure PluginConfig where
  Hash : String
  Flow : String
  ID : Int
  Alias : String
  File : String
  DefaultInclude : Bool
  Params : Params

/-- The functions of package `core` that `Init` calls and that are not among the sources, taken
as parameters.  `IsDataFieldsTypesEqual` receives pointers to `plugin.Input` and
`plugin.Output`, so it gives back the two lists as it leaves them. -/
structure Core where
  CheckPluginParams : AvailableParams → Params → Option String
  IsDataFieldsTypesEqual : List String → List String → Except String (List String × List String)
  ExtractRegexpsIntoArrays : List String → Bool → List (List Regexp)
  SliceStringToUpper : List String → List String

/-- The errors `Init` returns. -/
inductive InitError where
  | params (msg : String)
  | sizeMismatch
  | fieldsTypes (msg : String)
deriving DecidableEq, Repr

/-- Source: the loop of regexpmatch.go:277-294 that computes `(minLength, maxLength)`. -/
def lengthBounds : List Nat → Nat × Nat → Nat × Nat
  | [], acc => acc
  | length :: rest, (minLength, maxLength) =>
    lengthBounds rest
      (if length < minLength then length else minLength,
       if length > maxLength then length else maxLength)

/-- Source: the closure `setInclude` of `Init` (regexpmatch.go:191-196), on the plugin under
construction and `availableParams`. -/
def setInclude (st : Plugin × AvailableParams) (v : Option ParamValue) :
    Plugin × AvailableParams :=
  match IsBool v with
  | some b => ({ st.1 with Include := b }, st.2.put "include" 0)
  | none => st

/-- Source: the closure `setInput` of `Init` (regexpmatch.go:202-207). -/
def setInput (st : Plugin × AvailableParams) (v : Option ParamValue) :
    Plugin × AvailableParams :=
  match IsSliceOfString v with
  | some xs => ({ st.1 with Input := xs }, st.2.put "input" 0)
  | none => st

/-- Source: the closure `setMatchAll` of `Init` (regexpmatch.go:212-217). -/
def setMatchAll (st : Plugin × AvailableParams) (v : Option ParamValue) :
    Plugin × AvailableParams :=
  match IsBool v with
  | some b => ({ st.1 with MatchAll := b }, st.2.put "match_all" 0)
  | none => st

/-- Source: the closure `setMatchCase` of `Init` (regexpmatch.go:223-228). -/
def setMatchCase (st : Plugin × AvailableParams) (v : Option ParamValue) :
    Plugin × AvailableParams :=
  match IsBool v with
  | some b => ({ st.1 with MatchCase := b }, st.2.put "match_case" 0)
  | none => st

/-- Source: the closure `setOutput` of `Init` (regexpmatch.go:234-239). -/
def setOutput (st : Plugin × AvailableParams) (v : Option ParamValue) :
    Plugin × AvailableParams :=
  match IsSliceOfString v with
  | some xs => ({ st.1 with Output := xs }, st.2.put "output" 0)
  | none => st

/-- Source: the closure `setRegexp` of `Init` (regexpmatch.go:244-249). -/
def setRegexp (core : Core) (st : Plugin × AvailableParams) (v : Option ParamValue) :
    Plugin × AvailableParams :=
  match IsSliceOfString v with
  | some xs =>
    ({ st.1 with Regexp := core.ExtractRegexpsIntoArrays xs st.1.MatchCase }, st.2.put "regexp" 0)
  | none => st

/-- Source: the closure `setRequire` of `Init` (regexpmatch.go:254-260). -/
def setRequire (st : Plugin × AvailableParams) (v : Option ParamValue) :
    Plugin × AvailableParams :=
  match IsSliceOfInt v with
  | some xs => ({ st.1 with Require := xs }, st.2.put "require" 0)
  | none => st

/-- Source: the state of `Init` after the parameters have been read (regexpmatch.go:146-262):
the plugin under construction and `availableParams`. -/
def readParams (core : Core) (pluginConfig : PluginConfig) : Plugin × AvailableParams :=
  let plugin : Plugin :=
    { Hash := pluginConfig.Hash, Flow := pluginConfig.Flow, ID := pluginConfig.ID,
      Alias := pluginConfig.Alias, File := pluginConfig.File,
      Name := "regexpmatch", PluginType := "process",
      Include := false, Require := [], Input := [], Output := [],
      MatchAll := false, MatchCase := false, Regexp := [] }
  let availableParams : AvailableParams :=
    [("include", -1), ("require", -1), ("input", 1), ("match_case", -1), ("output", -1),
      ("regexp", 1)]
  let st := (plugin, availableParams)
  let st := setInclude st (some (.bool pluginConfig.DefaultInclude))
  let st := setInclude st (pluginConfig.Params.get "include")
  let st := setInput st (pluginConfig.Params.get "input")
  let st := setMatchAll st (some (.bool false))
  let st := setMatchAll st (pluginConfig.Params.get "match_all")
  let st := setMatchCase st (some (.bool true))
  let st := setMatchCase st (pluginConfig.Params.get "match_case")
  let st := setOutput st (pluginConfig.Params.get "output")
  let st := setRegexp core st (pluginConfig.Params.get "regexp")
  setRequire st (pluginConfig.Params.get "require")

/-- Source: the list `lengths` of regexpmatch.go:281-285. -/
def checkedLengths (plugin : Plugin) (availableParams : AvailableParams) : List Nat :=
  if availableParams.get "output" = 0 then
    [plugin.Input.length, plugin.Output.length, plugin.Regexp.length]
  else [plugin.Input.length, plugin.Regexp.length]

/-- Source: `Init` (regexpmatch.go:143-318).  `DEFAULT_MATCH_ALL = false` and
`DEFAULT_MATCH_CASE = true` are the constants of lines 11-14; logging is left out. -/
def Init (core : Core) (pluginConfig : PluginConfig) : Except InitError Plugin :=
  let st := readParams core pluginConfig
  let plugin := st.1
  let availableParams := st.2
  match core.CheckPluginParams availableParams pluginConfig.Params with
  | some err => .error (.params err)
  | none =>
    let bounds := lengthBounds (checkedLengths plugin availableParams) (10000, 0)
    let minLength := bounds.1
    let maxLength := bounds.2
    if availableParams.get "output" = 0 then
      if minLength ≠ maxLength then .error .sizeMismatch
      else
        match core.IsDataFieldsTypesEqual plugin.Input plugin.Output with
        | .error err => .error (.fieldsTypes err)
        | .ok (input, output) => .ok { plugin with Input := input, Output := output }
    else if minLength ≠ maxLength then .error .sizeMismatch
    else
      .ok { plugin with
        Input := core.SliceStringToUpper plugin.Input
        Output := core.SliceStringToUpper plugin.Output }

/-- Modelled from the spec: `core.CheckPluginParams` is not among the sources.  Its call is
commented "Check required and unknown parameters": a parameter still marked `1` is required and
was not set, and a key of the parameter map that `availableParams` does not have is unknown. -/
def specCheckPluginParams (availableParams : AvailableParams) (params : Params) : Option String :=
  if availableParams.any (fun e => e.2 = 1) then some "required parameter is not set"
  else if params.any (fun e => (availableParams.lookup e.1).isNone) then some "unknown parameter"
  else none

/-- Modelled from the spec: `core.IsDataFieldsTypesEqual` is not among the sources.  The spec
asks that each pair `input[i]`, `output[i]` references two fields of the same kind, both scalar
or both sequence; `schema` gives the kind of each field of the data item type. -/
def specIsDataFieldsTypesEqual (schema : String → Kind) (input output : List String) :
    Except String (List String × List String) :=
  if (input.zip output).all (fun io => schema io.1 = schema io.2 ∧ schema io.1 ≠ .invalid) then
    .ok (input, output)
  else .error "data fields types are not equal"

/-- A regexp compiled without `match_case`: it matches a text whatever the case of its
letters. -/
def ignoreCase (compile : String → Regexp) (pattern : String) : Regexp :=
  ⟨fun text => (compile (pattern.map Char.toLower)).MatchString (text.map Char.toLower)⟩

/-- The regexp of one pattern text of the two shapes used below: `^` followed by ordinary
characters, or ordinary characters only. -/
def compilePattern (pattern : String) : Regexp :=
  match pattern.data with
  | '^' :: rest => anchoredRegexp (String.mk rest)
  | _ => literalRegexp pattern

/-- Modelled from the spec: `core.ExtractRegexpsIntoArrays` is not among the sources.  The spec
has one pattern group per entry of `regexp`, compiled case-sensitively when `match_case` is
set; here each entry is the text of one pattern. -/
def specExtractRegexpsIntoArrays (regexps : List String) (matchCase : Bool) :
    List (List Regexp) :=
  regexps.map (fun pattern =>
    [if matchCase then compilePattern pattern else ignoreCase compilePattern pattern])

/-- Modelled from the spec: the functions of package `core` that `Init` calls, for a data item
type whose fields have the kinds of `schema`. -/
def specCore (schema : String → Kind) : Core :=
  { CheckPluginParams := specCheckPluginParams
    IsDataFieldsTypesEqual := specIsDataFieldsTypesEqual schema
    ExtractRegexpsIntoArrays := specExtractRegexpsIntoArrays
    SliceStringToUpper := fun xs => xs.map String.toUpper }

/-! ## The scheduling loop of `RunApp` -/

/-- Modelled from the spec: `core.Flow` is not among the sources.  These are the attributes the
scheduling loop reads: the identity, `Interval` (seconds, compared with an `int64`) and
`Number`. -/
structure Flow where
  UUID : Nat
  Interval : Int
  Number : Int
deriving DecidableEq, Repr

/-- Unix seconds of the zero `time.Time`: what `flowsStates[flow.UUID].Unix()` is for a flow
that has no entry in the map yet. -/
def zeroTimeUnix : Int := -62135596800

/-- Two's-complement result of an `int64` operation. -/
def wrapInt64 (x : Int) : Int :=
  (x + 9223372036854775808) % 18446744073709551616 - 9223372036854775808

/-- Source: the condition of cmd.go:115,
`(currentTime.Unix()-lastTime.Unix()) > flow.Interval && flow.GetNumber() < flow.Number`;
`number` is what `flow.GetNumber()` returns. -/
def isDue (currentUnix lastUnix number : Int) (flow : Flow) : Bool :=
  decide (wrapInt64 (currentUnix - lastUnix) > flow.Interval) && decide (number < flow.Number)

/-- State of the loop: the map `flowsStates` (as Unix seconds, the only use made of the stored
times) and the log of the `go runFlow(config, flow)` statements executed so far, each with the
flow's UUID and the Unix second of `currentTime`. -/
structure Scheduler where
  flowsStates : Nat → Int
  launched : List (Nat × Int)

/-- State at cmd.go:106: an empty map and nothing launched. -/
def Scheduler.initial : Scheduler :=
  { flowsStates := fun _ => zeroTimeUnix, launched := [] }

/-- Source: the body of `for _, flow := range flows` (cmd.go:112-152) for one flow.  The `else
if` branch only exports and resets the metrics counters and is left out. -/
def flowIter (currentUnix number : Int) (st : Scheduler) (flow : Flow) : Scheduler :=
  if isDue currentUnix (st.flowsStates flow.UUID) number flow then
    { flowsStates := fun u => if u = flow.UUID then currentUnix else st.flowsStates u,
      launched := st.launched ++ [(flow.UUID, currentUnix)] }
  else st

/-- One pass of the outer `for` (cmd.go:109-155): the clock reading and, for each flow, what
`flow.GetNumber()` returns during that pass. -/
structure Tick where
  currentUnix : Int
  GetNumber : Nat → Int

/-- Source: one pass of the outer `for` of `RunApp` (cmd.go:110-154). -/
def tick (flows : List Flow) (st : Scheduler) (t : Tick) : Scheduler :=
  flows.foldl (fun st flow => flowIter t.currentUnix (t.GetNumber flow.UUID) st flow) st

/-- Source: the loop of `RunApp` over a sequence of passes, from the state of cmd.go:106. -/
def RunApp (flows : List Flow) (ticks : List Tick) : Scheduler :=
  ticks.foldl (tick flows) Scheduler.initial

/-- The Unix seconds at which a flow was launched, oldest first. -/
def launchTimes (st : Scheduler) (uuid : Nat) : List Int :=
  (st.launched.filter (fun l => l.1 = uuid)).map (fun l => l.2)

/-- Modelled from the spec: `Flow.GetNumber` and `runFlow` are not among the sources.  The spec
says that the run counter starts at zero and that each launch raises it by one, so the counter of
a flow is the number of its launches so far. -/
def runCounter (st : Scheduler) (flow : Flow) : Int :=
  ((launchTimes st flow.UUID).length : Int)

/-- One pass of the outer `for` when the run counter is the one of `runCounter`. -/
def countedTick (flows : List Flow) (st : Scheduler) (currentUnix : Int) : Scheduler :=
  flows.foldl (fun st flow => flowIter currentUnix (runCounter st flow) st flow) st

/-- The loop of `RunApp` over a sequence of clock readings when the run counter is the one of
`runCounter`. -/
def RunAppCounted (flows : List Flow) (clock : List Int) : Scheduler :=
  clock.foldl (countedTick flows) Scheduler.initial

/-- A clock reading that `time.Now().Unix()` can give: far inside the `int64` range, so that
the difference of two readings, or of a reading and `zeroTimeUnix`, does not wrap. -/
def unixInRange (t : Int) : Prop :=
  -4611686018427387904 ≤ t ∧ t < 4611686018427387904

instance (t : Int) : Decidable (unixInRange t) :=
  inferInstanceAs (Decidable (-4611686018427387904 ≤ t ∧ t < 4611686018427387904))

/-- What the loop maintains for a flow: consecutive launches are related by `R`, the flow's
entry in `flowsStates` is the time of its last launch, and that entry satisfies `Q`. -/
def SpacedLaunches (R : Int → Int → Prop) (Q : Int → Prop) (uuid : Nat) (st : Scheduler) : Prop :=
  List.Chain' R (launchTimes st uuid)
  ∧ (∀ t ∈ (launchTimes st uuid).getLast?, st.flowsStates uuid = t)
  ∧ Q (st.flowsStates uuid)

/-! ## The behaviour of `Plugin.Do` in the words of the specification -/

/-- The item matches at index `i`: some pattern of `Regexp[i]` matches the scalar field, or
matches some element of the sequence field. -/
def indexMatched (p : Plugin) (item : DataItem) (i : Nat) : Bool :=
  match item (p.Input.getD i "") with
  | some (.str s) => (p.Regexp.getD i []).any (fun re => re.MatchString s)
  | some (.slice xs) => xs.any (fun x => (p.Regexp.getD i []).any (fun re => re.MatchString x))
  | none => false

/-- The retention rule: with `match_all` every index matched, without it at least one did. -/
def retentionRule (p : Plugin) (item : DataItem) : Bool :=
  if p.MatchAll then (List.range p.Input.length).all (indexMatched p item)
  else (List.range p.Input.length).any (indexMatched p item)

/-- The copy into `output[i]`: a matched scalar is copied verbatim, the matching elements of a
sequence are appended; nothing is written when `output` is not set. -/
def outputWrite (p : Plugin) (i : Nat) (item : DataItem) : DataItem :=
  match p.Output[i]? with
  | none => item
  | some output =>
    match item (p.Input.getD i "") with
    | some (.str s) =>
      if (p.Regexp.getD i []).any (fun re => re.MatchString s) then
        item.setField output (.str s)
      else item
    | some (.slice xs) =>
      match item output with
      | some (.slice ys) =>
        item.setField output
          (.slice (ys ++ xs.filter (fun x => (p.Regexp.getD i []).any (fun re => re.MatchString x))))
      | _ => item
    | none => item

/-- What the copy at index `i` leaves in the output field, given what the input field and the
output field hold. -/
def writtenValue (p : Plugin) (i : Nat) (vin vout : Option FieldValue) : Option FieldValue :=
  match vin with
  | some (.str s) =>
    if (p.Regexp.getD i []).any (fun re => re.MatchString s) then some (.str s) else vout
  | some (.slice xs) =>
    match vout with
    | some (.slice ys) =>
      some (.slice (ys ++ xs.filter (fun x => (p.Regexp.getD i []).any (fun re => re.MatchString x))))
    | _ => vout
  | none => vout

/-- The copies of all indices, in the order of `input`. -/
def allWrites (p : Plugin) (item : DataItem) : DataItem :=
  (List.range p.Input.length).foldl (fun it i => outputWrite p i it) item

/-- The size contract `Init` enforces: one pattern group per input field and, when `output` is
set, one output field per input field. -/
def SizesAgree (p : Plugin) : Prop :=
  p.Regexp.length = p.Input.length ∧ (p.Output.length = 0 ∨ p.Output.length = p.Input.length)

/-- The type contract `Init` delegates to `core.IsDataFieldsTypesEqual`: on this item every
pair `input[i]`, `output[i]` names two fields of the same kind. -/
def TypesAgree (p : Plugin) (item : DataItem) : Prop :=
  ∀ i, i < p.Input.length → i < p.Output.length →
    kindOf (item (p.Output.getD i "")) = kindOf (item (p.Input.getD i ""))

/-- No output field is also an input field. -/
def OutputApart (p : Plugin) : Prop :=
  ∀ o ∈ p.Output, o ∉ p.Input

instance (p : Plugin) : Decidable (SizesAgree p) :=
  inferInstanceAs (Decidable (p.Regexp.length = p.Input.length
    ∧ (p.Output.length = 0 ∨ p.Output.length = p.Input.length)))

instance (p : Plugin) (item : DataItem) : Decidable (TypesAgree p item) :=
  inferInstanceAs (Decidable (∀ i, i < p.Input.length → i < p.Output.length →
    kindOf (item (p.Output.getD i "")) = kindOf (item (p.Input.getD i ""))))

instance (p : Plugin) : Decidable (OutputApart p) :=
  inferInstanceAs (Decidable (∀ o ∈ p.Output, o ∉ p.Input))

/-- The iteration budget exceeds the length of every sequence the plugin reads. -/
def EnoughFuel (fuel : Nat) (p : Plugin) (heap : Heap) (data : List Ptr) : Prop :=
  ∀ ptr ∈ data, ∀ input ∈ p.Input, ∀ xs, heap ptr input = some (.slice xs) → xs.length < fuel

/-- Length of a sequence field, zero for anything else. -/
def sliceLength : Option FieldValue → Nat
  | some (.slice xs) => xs.length
  | _ => 0

/-- A budget that is enough for `data`: one more than the total length of the sequences read. -/
def fuelBound (p : Plugin) (heap : Heap) (data : List Ptr) : Nat :=
  (data.map (fun ptr => (p.Input.map (fun input => sliceLength (heap ptr input))).sum)).sum + 1

/-! ## Concrete configurations and items -/

/-- A plugin of a flow, with the given parameters. -/
def mkPlugin (id : Int) (incl : Bool) (require : List Int) (input output : List String)
    (matchAll : Bool) (regexp : List (List Regexp)) : Plugin :=
  { Hash := "", Flow := "flow", ID := id, Alias := "", File := "flow.yml",
    Name := "regexpmatch", PluginType := "process",
    Include := incl, Require := require, Input := input, Output := output,
    MatchAll := matchAll, MatchCase := true, Regexp := regexp }

/-- An item with the scalar fields `A = "hello world"`, `B = "nothing"` and `C = ""`. -/
def helloItem : DataItem := fun n =>
  if n = "A" then some (.str "hello world")
  else if n = "B" then some (.str "nothing")
  else if n = "C" then some (.str "")
  else none

/-- A heap whose only item of interest is `helloItem`. -/
def helloHeap : Heap := fun _ => helloItem

/-- Pattern `hello` on field `A`, pattern `zzz` on field `B`, no output. -/
def helloPlugin (matchAll : Bool) : Plugin :=
  mkPlugin 1 true [] ["A", "B"] [] matchAll [[literalRegexp "hello"], [literalRegexp "zzz"]]

/-- Pattern `hello` on fields `A` and `B`, with `A` copied to `B` and `B` to `A`. -/
def swapPlugin : Plugin :=
  mkPlugin 1 true [] ["A", "B"] ["B", "A"] true [[literalRegexp "hello"], [literalRegexp "hello"]]

/-- An item with the sequence fields `TAGS = ["apple", "banana"]`, `MORE = ["banana"]` and
`OUT = []`. -/
def fruitItem : DataItem := fun n =>
  if n = "TAGS" then some (.slice ["apple", "banana"])
  else if n = "MORE" then some (.slice ["banana"])
  else if n = "OUT" then some (.slice [])
  else none

/-- A heap whose only item of interest is `fruitItem`. -/
def fruitHeap : Heap := fun _ => fruitItem

/-- Pattern `^a` on the sequence `TAGS`, copied to `OUT`. -/
def fruitPlugin : Plugin :=
  mkPlugin 1 true [] ["TAGS"] ["OUT"] false [[anchoredRegexp "a"]]

/-- Pattern `^a` on `TAGS` and pattern `^b` on `MORE`, both copied to `OUT`. -/
def sharedOutputPlugin : Plugin :=
  mkPlugin 1 true [] ["TAGS", "MORE"] ["OUT", "OUT"] false
    [[anchoredRegexp "a"], [anchoredRegexp "b"]]

/-- Pattern `^a` on the sequence `TAGS`, copied to `TAGS` itself. -/
def selfOutputPlugin : Plugin :=
  mkPlugin 1 true [] ["TAGS"] ["TAGS"] false [[anchoredRegexp "a"]]

/-- Stage 1 of a chain: pattern `zzz` on field `A`. -/
def stageOne : Plugin :=
  mkPlugin 1 true [] ["A"] [] false [[literalRegexp "zzz"]]

/-- Stage 2 of a chain, which requires stage 1: pattern `hello` on field `A`, copied to `C`. -/
def stageTwo : Plugin :=
  mkPlugin 2 true [1] ["A"] ["C"] false [[literalRegexp "hello"]]

/-- Pattern `hello` on field `A`, with the given `include`. -/
def includePlugin (incl : Bool) : Plugin :=
  mkPlugin 1 incl [] ["A"] [] false [[literalRegexp "hello"]]

/-- Kinds of the fields of the item type of `helloItem`. -/
def helloSchema (name : String) : Kind :=
  kindOf (helloItem name)

/-- The configuration `input: ["A", "B"]`, `output: ["B", "A"]`, `regexp: ["hello", "hello"]`,
`match_all: true`. -/
def swapConfig : PluginConfig :=
  { Hash := "", Flow := "flow", ID := 1, Alias := "", File := "flow.yml", DefaultInclude := true,
    Params := [("input", .strings ["A", "B"]), ("output", .strings ["B", "A"]),
      ("regexp", .strings ["hello", "hello"]), ("match_all", .bool true)] }

/-- The configuration `input: ["TAGS", "MORE"]`, `output: ["OUT", "OUT"]`,
`regexp: ["^a", "^b"]`. -/
def sharedOutputConfig : PluginConfig :=
  { Hash := "", Flow := "flow", ID := 1, Alias := "", File := "flow.yml", DefaultInclude := true,
    Params := [("input", .strings ["TAGS", "MORE"]), ("output", .strings ["OUT", "OUT"]),
      ("regexp", .strings ["^a", "^b"])] }

/-- Kinds of the fields of the item type of `fruitItem`. -/
def fruitSchema (name : String) : Kind :=
  kindOf (fruitItem name)

/-- The configuration `input: ["TAGS"]`, `output: ["TAGS"]`, `regexp: ["^a"]`. -/
def selfOutputConfig : PluginConfig :=
  { Hash := "", Flow := "flow", ID := 1, Alias := "", File := "flow.yml", DefaultInclude := true,
    Params := [("input", .strings ["TAGS"]), ("output", .strings ["TAGS"]),
      ("regexp", .strings ["^a"])] }

/-- The configuration with 10001 input fields and 10001 patterns, and no output. -/
def largeConfig : PluginConfig :=
  { Hash := "", Flow := "flow", ID := 1, Alias := "", File := "flow.yml", DefaultInclude := true,
    Params := [("input", .strings (List.replicate 10001 "TAGS")),
      ("regexp", .strings (List.replicate 10001 "^a"))] }

/-- The configuration with two input fields and one pattern. -/
def mismatchConfig : PluginConfig :=
  { Hash := "", Flow := "flow", ID := 1, Alias := "", File := "flow.yml", DefaultInclude := true,
    Params := [("input", .strings ["TAGS", "MORE"]), ("regexp", .strings ["^a"])] }

/-- A flow with `Interval = 60` and `Number = 0`. -/
def unlimitedFlow : Flow := { UUID := 7, Interval := 60, Number := 0 }

/-- A flow with `Interval = 60` and `Number = 2`. -/
def cappedFlow : Flow := { UUID := 8, Interval := 60, Number := 2 }

/-- Passes of the loop at the given Unix seconds, with a run counter that reads `number` for
every flow. -/
def ticksAt (number : Int) (clock : List Int) : List Tick :=
  clock.map (fun t => { currentUnix := t, GetNumber := fun _ => number })

/-! ## Lemmas on fields and on the element loop -/

theorem matchRegexes_eq_any (res : List Regexp) (text : String) :
    matchRegexes res text = res.any (fun re => re.MatchString text) := by
  induction res with
  | nil => rfl
  | cons re rest ih =>
    simp only [matchRegexes, List.any_cons, ih]
    cases re.MatchString text <;> simp

theorem setField_same (item : DataItem) (name : String) (v : FieldValue) :
    item.setField name v name = some v := by
  simp [DataItem.setField]

theorem setField_other (item : DataItem) (name n : String) (v : FieldValue) (h : n ≠ name) :
    item.setField name v n = item n := by
  simp [DataItem.setField, h]

theorem setField_setField (item : DataItem) (name : String) (v w : FieldValue) :
    (item.setField name v).setField name w = item.setField name w := by
  funext n
  by_cases h : n = name <;> simp [DataItem.setField, h]

theorem setField_self (item : DataItem) (name : String) (v : FieldValue)
    (h : item name = some v) : item.setField name v = item := by
  funext n
  by_cases hn : n = name
  · subst hn; simp [DataItem.setField, h]
  · simp [DataItem.setField, hn]

/-- The element loop without an output field: the item is left alone and the flag records
whether an element from position `i` on is matched. -/
theorem sliceLoop_none (p : Plugin) (index : Nat) (input : String) (res : List Regexp)
    (xs : List String) (item : DataItem)
    (hin : item input = some (.slice xs)) (hres : p.Regexp[index]? = some res) :
    ∀ (fuel i : Nat) (b : Bool), i ≤ xs.length → xs.length < fuel + i →
      sliceLoop p index input none fuel item i b
        = .ok (item, b || (xs.drop i).any (matchRegexes res)) := by
  intro fuel
  induction fuel with
  | zero => intro i b h1 h2; omega
  | succ fuel ih =>
    intro i b h1 h2
    unfold sliceLoop
    simp only [ReflectDataField, hin, hres]
    by_cases hi : i < xs.length
    · rw [dif_pos hi]
      rw [List.drop_eq_getElem_cons hi, List.any_cons]
      by_cases hm : matchRegexes res xs[i] = true
      · rw [if_pos hm, ih (i + 1) true (by omega) (by omega), hm]
        simp
      · rw [if_neg hm, ih (i + 1) b (by omega) (by omega)]
        simp only [Bool.not_eq_true] at hm
        rw [hm]; simp
    · rw [dif_neg hi]
      have : xs.drop i = [] := List.drop_eq_nil_of_le (by omega)
      rw [this]; simp

/-- The element loop with an output field other than the input field: the matched elements
from position `i` on are appended to the output field. -/
theorem sliceLoop_some (p : Plugin) (index : Nat) (input output : String) (res : List Regexp)
    (xs : List String) (hne : input ≠ output) (hres : p.Regexp[index]? = some res) :
    ∀ (fuel i : Nat) (b : Bool) (item : DataItem) (ys : List String),
      item input = some (.slice xs) → item output = some (.slice ys) →
      i ≤ xs.length → xs.length < fuel + i →
      sliceLoop p index input (some output) fuel item i b
        = .ok (item.setField output (.slice (ys ++ (xs.drop i).filter (matchRegexes res))),
            b || (xs.drop i).any (matchRegexes res)) := by
  intro fuel
  induction fuel with
  | zero => intro i b item ys _ _ h1 h2; omega
  | succ fuel ih =>
    intro i b item ys hin hout h1 h2
    unfold sliceLoop
    simp only [ReflectDataField, hin, hres]
    by_cases hi : i < xs.length
    · rw [dif_pos hi]
      rw [List.drop_eq_getElem_cons hi, List.any_cons]
      by_cases hm : matchRegexes res xs[i] = true
      · rw [if_pos hm]
        simp only [hout]
        rw [ih (i + 1) true (item.setField output (.slice (ys ++ [xs[i]]))) (ys ++ [xs[i]])
          (by rw [setField_other _ _ _ _ hne]; exact hin) (setField_same _ _ _)
          (by omega) (by omega)]
        rw [setField_setField, List.filter_cons_of_pos hm, hm]
        simp
      · rw [if_neg hm, ih (i + 1) b item ys hin hout (by omega) (by omega)]
        rw [List.filter_cons_of_neg hm]
        simp only [Bool.not_eq_true] at hm
        rw [hm]; simp
    · rw [dif_neg hi]
      have : xs.drop i = [] := List.drop_eq_nil_of_le (by omega)
      rw [this]
      simp only [List.filter_nil, List.append_nil, List.any_nil, Bool.or_false]
      rw [setField_self _ _ _ hout]

/-! ## One index, and the loop over the input fields -/

theorem set_false_of_getElem? (matched : List Bool) (index : Nat)
    (h : matched[index]? = some false) : matched.set index false = matched := by
  apply List.ext_getElem?
  intro j
  rw [List.getElem?_set]
  by_cases hj : index = j
  · subst hj
    rw [if_pos rfl, h]
    have : index < matched.length := by
      by_contra hlt
      rw [List.getElem?_eq_none (by omega)] at h
      exact Option.noConfusion h
    rw [if_pos this]
  · rw [if_neg hj]

theorem matchRegexes_fun (res : List Regexp) :
    matchRegexes res = fun x => res.any (fun re => re.MatchString x) := by
  funext x
  exact matchRegexes_eq_any res x

theorem kindOf_string {v : Option FieldValue} (h : kindOf v = .string) :
    ∃ s, v = some (.str s) := by
  cases v with
  | none => simp [kindOf] at h
  | some w => cases w with
    | str s => exact ⟨s, rfl⟩
    | slice xs => simp [kindOf] at h

theorem kindOf_slice {v : Option FieldValue} (h : kindOf v = .slice) :
    ∃ xs, v = some (.slice xs) := by
  cases v with
  | none => simp [kindOf] at h
  | some w => cases w with
    | str s => simp [kindOf] at h
    | slice xs => exact ⟨xs, rfl⟩

/-- One index of the loop over the input fields does what the specification says of it. -/
theorem doIndex_spec (p : Plugin) (hs : SizesAgree p) (index : Nat) (hidx : index < p.Input.length)
    (item : DataItem) (matched : List Bool) (fuel : Nat)
    (hne : ∀ o, p.Output[index]? = some o → p.Input[index] ≠ o)
    (hty : index < p.Output.length →
      kindOf (item (p.Output.getD index "")) = kindOf (item (p.Input.getD index "")))
    (hfuel : ∀ xs, item p.Input[index] = some (.slice xs) → xs.length < fuel)
    (hm : matched[index]? = some false) :
    doIndex fuel p index p.Input[index] item matched
      = .ok (outputWrite p index item, matched.set index (indexMatched p item index)) := by
  obtain ⟨hre, hout⟩ := hs
  have hridx : index < p.Regexp.length := by omega
  have hres : p.Regexp[index]? = some p.Regexp[index] := List.getElem?_eq_getElem hridx
  have hgetR : p.Regexp.getD index [] = p.Regexp[index] := by
    rw [List.getD_eq_getElem?_getD, hres]; rfl
  have hgetI : p.Input.getD index "" = p.Input[index] := by
    rw [List.getD_eq_getElem?_getD, List.getElem?_eq_getElem hidx]; rfl
  unfold doIndex outputWrite indexMatched
  rw [hgetR, hgetI]
  simp only [ReflectDataField]
  rcases hout with h0 | hn
  · -- output is not set
    have hO : p.Output[index]? = none := List.getElem?_eq_none (by omega)
    have hlen : ¬ p.Output.length > 0 := by omega
    rw [if_neg hlen, hO]
    simp only []
    cases hv : item p.Input[index] with
    | none => simp only []; rw [set_false_of_getElem? _ _ hm]
    | some v =>
      cases v with
      | str s =>
        simp only [hres]
        rw [matchRegexes_eq_any]
        by_cases hmt : (p.Regexp[index].any fun re => re.MatchString s) = true
        · rw [if_pos hmt, hmt]
        · rw [if_neg hmt]
          simp only [Bool.not_eq_true] at hmt
          rw [hmt, set_false_of_getElem? _ _ hm]
      | slice xs =>
        simp only []
        rw [sliceLoop_none p index _ _ xs item hv hres fuel 0 false (by omega)
          (by have := hfuel xs hv; omega)]
        simp only [List.drop_zero, Bool.false_or]
        rw [matchRegexes_fun]
  · -- output is set
    have hoidx : index < p.Output.length := by omega
    have hO : p.Output[index]? = some p.Output[index] := List.getElem?_eq_getElem hoidx
    have hgetO : p.Output.getD index "" = p.Output[index] := by
      rw [List.getD_eq_getElem?_getD, hO]; rfl
    have hlen : p.Output.length > 0 := by omega
    have hk := hty hoidx
    rw [hgetO, hgetI] at hk
    have hneq := hne _ hO
    rw [if_pos hlen, hO]
    simp only [Option.map_some']
    cases hv : item p.Input[index] with
    | none => simp only []; rw [set_false_of_getElem? _ _ hm]
    | some v =>
      cases v with
      | str s =>
        simp only [hres]
        rw [hv] at hk
        obtain ⟨t, ht⟩ := kindOf_string hk
        rw [matchRegexes_eq_any]
        by_cases hmt : (p.Regexp[index].any fun re => re.MatchString s) = true
        · rw [if_pos hmt, if_pos hmt, hmt, ht]
        · rw [if_neg hmt, if_neg hmt]
          simp only [Bool.not_eq_true] at hmt
          rw [hmt, set_false_of_getElem? _ _ hm]
      | slice xs =>
        simp only []
        rw [hv] at hk
        obtain ⟨ys, hys⟩ := kindOf_slice hk
        rw [sliceLoop_some p index _ _ _ xs hneq hres fuel 0 false item ys hv hys (by omega)
          (by have := hfuel xs hv; omega)]
        simp only [List.drop_zero, Bool.false_or, hys]
        rw [matchRegexes_fun]

/-- What one copy leaves alone: every field that is not an output field. -/
theorem outputWrite_other (p : Plugin) (i : Nat) (item : DataItem) (n : String)
    (hn : n ∉ p.Output) : outputWrite p i item n = item n := by
  unfold outputWrite
  cases hO : p.Output[i]? with
  | none => rfl
  | some output =>
    have hmem : output ∈ p.Output := List.getElem?_mem hO
    have hne : n ≠ output := fun h => hn (h ▸ hmem)
    simp only []
    cases item (p.Input.getD i "") with
    | none => rfl
    | some v =>
      cases v with
      | str s =>
        simp only []
        split
        · exact setField_other _ _ _ _ hne
        · rfl
      | slice xs =>
        simp only []
        cases item output with
        | none => rfl
        | some w =>
          cases w with
          | str t => rfl
          | slice ys => exact setField_other _ _ _ _ hne

/-- A copy never changes the kind of a field. -/
theorem outputWrite_kind (p : Plugin) (hs : SizesAgree p) (i : Nat) (item : DataItem)
    (hty : TypesAgree p item) (n : String) :
    kindOf (outputWrite p i item n) = kindOf (item n) := by
  unfold outputWrite
  cases hO : p.Output[i]? with
  | none => rfl
  | some output =>
    have hoi : i < p.Output.length := by
      by_contra h
      rw [List.getElem?_eq_none (by omega)] at hO
      exact Option.noConfusion hO
    have hii : i < p.Input.length := by
      rcases hs.2 with h | h <;> omega
    have hk := hty i hii hoi
    have hgetO : p.Output.getD i "" = output := by
      rw [List.getD_eq_getElem?_getD, hO]; rfl
    rw [hgetO] at hk
    simp only []
    cases hv : item (p.Input.getD i "") with
    | none => rfl
    | some v =>
      rw [hv] at hk
      cases v with
      | str s =>
        simp only []
        split
        · by_cases hn : n = output
          · subst hn; rw [setField_same, hk]
          · rw [setField_other _ _ _ _ hn]
        · rfl
      | slice xs =>
        simp only []
        cases hys : item output with
        | none => rfl
        | some w =>
          cases w with
          | str t => rfl
          | slice ys =>
            simp only []
            by_cases hn : n = output
            · subst hn; rw [setField_same, hys]; rfl
            · rw [setField_other _ _ _ _ hn]

/-- Types agree on an item whose fields have the kinds of an item on which they agree. -/
theorem TypesAgree.of_kind {p : Plugin} {item item' : DataItem} (h : TypesAgree p item)
    (hk : ∀ n, kindOf (item' n) = kindOf (item n)) : TypesAgree p item' := by
  intro i hi ho
  rw [hk, hk]
  exact h i hi ho

/-- Whether an index matches depends on the input fields only. -/
theorem indexMatched_congr (p : Plugin) (item item' : DataItem) (i : Nat)
    (hi : i < p.Input.length) (h : ∀ n ∈ p.Input, item' n = item n) :
    indexMatched p item' i = indexMatched p item i := by
  unfold indexMatched
  have hmem : p.Input.getD i "" ∈ p.Input := by
    rw [List.getD_eq_getElem?_getD, List.getElem?_eq_getElem hi]
    exact List.getElem_mem hi
  rw [h _ hmem]

/-- The loop over the input fields, started at `index`: it performs the copies of the
remaining indices in order and records for each of them whether it matched. -/
theorem inputLoop_spec (p : Plugin) (hs : SizesAgree p) (hap : OutputApart p) (fuel : Nat) :
    ∀ (k index : Nat) (item : DataItem) (matched : List Bool),
      index + k = p.Input.length → TypesAgree p item →
      (∀ input ∈ p.Input, ∀ xs, item input = some (.slice xs) → xs.length < fuel) →
      (∀ j, index ≤ j → j < p.Input.length → matched[j]? = some false) →
      ∃ matched',
        inputLoop fuel p (p.Input.drop index) index item matched
          = .ok ((List.range' index k).foldl (fun it i => outputWrite p i it) item, matched')
        ∧ matched'.length = matched.length
        ∧ (∀ j, j < index → matched'[j]? = matched[j]?)
        ∧ (∀ j, index ≤ j → j < p.Input.length → matched'[j]? = some (indexMatched p item j)) := by
  intro k
  induction k with
  | zero =>
    intro index item matched hk _ _ hm
    refine ⟨matched, ?_, rfl, fun _ _ => rfl, ?_⟩
    · rw [List.drop_eq_nil_of_le (by omega)]
      rfl
    · intro j h1 h2; omega
  | succ k ih =>
    intro index item matched hk hty hfuel hm
    have hidx : index < p.Input.length := by omega
    have hinmem : p.Input[index] ∈ p.Input := List.getElem_mem hidx
    have hstep := doIndex_spec p hs index hidx item matched fuel
      (fun o ho heq => hap o (List.getElem?_mem ho) (heq ▸ hinmem))
      (fun ho => hty index hidx ho)
      (fun xs hxs => hfuel _ hinmem xs hxs)
      (hm index (le_refl _) hidx)
    have hinputs : ∀ n ∈ p.Input, outputWrite p index item n = item n :=
      fun n hn => outputWrite_other p index item n (fun ho => hap n ho hn)
    have hlen : index < matched.length := by
      by_contra h
      have := hm index (le_refl _) hidx
      rw [List.getElem?_eq_none (by omega)] at this
      exact Option.noConfusion this
    obtain ⟨matched', h1, h2, h3, h4⟩ := ih (index + 1) (outputWrite p index item)
      (matched.set index (indexMatched p item index)) (by omega)
      (hty.of_kind (outputWrite_kind p hs index item hty))
      (fun input hin xs hxs => hfuel input hin xs (by rw [← hinputs input hin]; exact hxs))
      (fun j hj1 hj2 => by
        rw [List.getElem?_set_ne (by omega)]
        exact hm j (by omega) hj2)
    refine ⟨matched', ?_, ?_, ?_, ?_⟩
    · rw [List.drop_eq_getElem_cons hidx]
      unfold inputLoop
      rw [hstep]
      simp only []
      rw [h1, List.range'_succ, List.foldl_cons]
    · rw [h2, List.length_set]
    · intro j hj
      rw [h3 j (by omega), List.getElem?_set_ne (by omega)]
    · intro j hj1 hj2
      by_cases hji : j = index
      · subst hji
        rw [h3 j (by omega), List.getElem?_set_self hlen]
      · rw [h4 j (by omega) hj2, indexMatched_congr p item _ j hj2 hinputs]

/-- A run of copies leaves the other fields alone and keeps every kind. -/
theorem foldl_outputWrite (p : Plugin) (hs : SizesAgree p) :
    ∀ (l : List Nat) (item : DataItem), TypesAgree p item →
      (∀ n, n ∉ p.Output → l.foldl (fun it i => outputWrite p i it) item n = item n)
      ∧ (∀ n, kindOf (l.foldl (fun it i => outputWrite p i it) item n) = kindOf (item n)) := by
  intro l
  induction l with
  | nil => intro item _; exact ⟨fun _ _ => rfl, fun _ => rfl⟩
  | cons i rest ih =>
    intro item hty
    have hk := outputWrite_kind p hs i item hty
    obtain ⟨h1, h2⟩ := ih (outputWrite p i item) (hty.of_kind hk)
    refine ⟨fun n hn => ?_, fun n => ?_⟩
    · rw [List.foldl_cons, h1 n hn, outputWrite_other p i item n hn]
    · rw [List.foldl_cons, h2 n, hk n]

theorem allWrites_other (p : Plugin) (hs : SizesAgree p) (item : DataItem)
    (hty : TypesAgree p item) (n : String) (hn : n ∉ p.Output) :
    allWrites p item n = item n :=
  (foldl_outputWrite p hs _ item hty).1 n hn

theorem allWrites_kind (p : Plugin) (hs : SizesAgree p) (item : DataItem)
    (hty : TypesAgree p item) (n : String) :
    kindOf (allWrites p item n) = kindOf (item n) :=
  (foldl_outputWrite p hs _ item hty).2 n

/-- The flags of regexpmatch.go:96-105 are "some flag is set" and "all flags are set". -/
theorem matchedFlags_eq (matched : List Bool) (someInputs allInputs : Bool) :
    matchedFlags matched (someInputs, allInputs)
      = (someInputs || matched.any id, allInputs && matched.all id) := by
  induction matched generalizing someInputs allInputs with
  | nil => simp [matchedFlags]
  | cons b rest ih =>
    cases b <;> simp [matchedFlags, ih]

/-- The test of regexpmatch.go:107 on the recorded flags is the retention rule. -/
theorem keepItem_map (p : Plugin) (item : DataItem) :
    keepItem p ((List.range p.Input.length).map (indexMatched p item)) = retentionRule p item := by
  unfold keepItem retentionRule
  rw [matchedFlags_eq]
  simp only [Bool.false_or, Bool.true_and, List.any_map, List.all_map]
  have hany : ∀ l : List Nat, (l.map (indexMatched p item)).any id = l.any (indexMatched p item) := by
    intro l; induction l with
    | nil => rfl
    | cons a l ih => simp only [List.map_cons, List.any_cons, ih, id]
  have hall : ∀ l : List Nat, (l.map (indexMatched p item)).all id = l.all (indexMatched p item) := by
    intro l; induction l with
    | nil => rfl
    | cons a l ih => simp only [List.map_cons, List.all_cons, ih, id]
  rw [hany, hall]
  cases p.MatchAll <;> simp

/-- The whole loop over the input fields of one item. -/
theorem inputLoop_full (p : Plugin) (hs : SizesAgree p) (hap : OutputApart p) (fuel : Nat)
    (item : DataItem) (hty : TypesAgree p item)
    (hfuel : ∀ input ∈ p.Input, ∀ xs, item input = some (.slice xs) → xs.length < fuel) :
    inputLoop fuel p p.Input 0 item (List.replicate p.Input.length false)
      = .ok (allWrites p item, (List.range p.Input.length).map (indexMatched p item)) := by
  obtain ⟨matched', h1, h2, _, h4⟩ := inputLoop_spec p hs hap fuel p.Input.length 0 item
    (List.replicate p.Input.length false) (by omega) hty hfuel
    (fun j _ hj => by rw [List.getElem?_replicate, if_pos hj])
  rw [List.drop_zero] at h1
  rw [h1]
  have hm : matched' = (List.range p.Input.length).map (indexMatched p item) := by
    apply List.ext_getElem?
    intro j
    by_cases hj : j < p.Input.length
    · rw [h4 j (by omega) hj, List.getElem?_map, List.getElem?_range hj]
      rfl
    · rw [List.length_replicate] at h2
      rw [List.getElem?_eq_none (by omega), List.getElem?_eq_none (by simp; omega)]
  rw [hm]
  unfold allWrites
  rw [List.range_eq_range']

/-- The retention rule depends on the input fields only. -/
theorem retentionRule_congr (p : Plugin) (item item' : DataItem)
    (h : ∀ n ∈ p.Input, item' n = item n) : retentionRule p item' = retentionRule p item := by
  unfold retentionRule
  have hall : ∀ i ∈ List.range p.Input.length, indexMatched p item' i = indexMatched p item i :=
    fun i hi => indexMatched_congr p item item' i (List.mem_range.mp hi) h
  have e1 : (List.range p.Input.length).all (indexMatched p item')
      = (List.range p.Input.length).all (indexMatched p item) := by
    rw [Bool.eq_iff_iff]
    simp only [List.all_eq_true]
    exact ⟨fun H i hi => (hall i hi) ▸ H i hi, fun H i hi => (hall i hi).symm ▸ H i hi⟩
  have e2 : (List.range p.Input.length).any (indexMatched p item')
      = (List.range p.Input.length).any (indexMatched p item) := by
    rw [Bool.eq_iff_iff]
    simp only [List.any_eq_true]
    exact ⟨fun ⟨i, hi, H⟩ => ⟨i, hi, (hall i hi) ▸ H⟩, fun ⟨i, hi, H⟩ => ⟨i, hi, (hall i hi).symm ▸ H⟩⟩
  rw [e1, e2]

/-- The loop over the data items: it returns the items the retention rule keeps, in order, and
has performed on each item the copies as many times as the item occurs in `data`. -/
theorem dataLoop_spec (p : Plugin) (hs : SizesAgree p) (hap : OutputApart p) (fuel : Nat) :
    ∀ (data : List Ptr) (heap : Heap) (temp : List Ptr),
      (∀ ptr ∈ data, TypesAgree p (heap ptr)) → EnoughFuel fuel p heap data →
      dataLoop fuel p data heap temp
        = .ok (temp ++ data.filter (fun ptr => retentionRule p (heap ptr)),
            fun q => (allWrites p)^[data.count q] (heap q)) := by
  intro data
  induction data with
  | nil => intro heap temp _ _; simp [dataLoop]
  | cons ptr rest ih =>
    intro heap temp hty hfuel
    have htyp : TypesAgree p (heap ptr) := hty ptr (List.mem_cons_self _ _)
    have hinputs : ∀ n ∈ p.Input, allWrites p (heap ptr) n = heap ptr n :=
      fun n hn => allWrites_other p hs _ htyp n (fun ho => hap n ho hn)
    have hstore : ∀ q, ∀ n ∈ p.Input, heap.store ptr (allWrites p (heap ptr)) q n = heap q n := by
      intro q n hn
      unfold Heap.store
      by_cases hq : q = ptr
      · subst hq; rw [if_pos rfl]; exact hinputs n hn
      · rw [if_neg hq]
    have hty' : ∀ q ∈ rest, TypesAgree p (heap.store ptr (allWrites p (heap ptr)) q) := by
      intro q hq
      unfold Heap.store
      by_cases hqp : q = ptr
      · subst hqp; rw [if_pos rfl]
        exact htyp.of_kind (allWrites_kind p hs _ htyp)
      · rw [if_neg hqp]; exact hty q (List.mem_cons_of_mem _ hq)
    have hfuel' : EnoughFuel fuel p (heap.store ptr (allWrites p (heap ptr))) rest := by
      intro q hq input hin xs hxs
      rw [hstore q input hin] at hxs
      exact hfuel q (List.mem_cons_of_mem _ hq) input hin xs hxs
    have hfilter : rest.filter (fun q => retentionRule p (heap.store ptr (allWrites p (heap ptr)) q))
        = rest.filter (fun q => retentionRule p (heap q)) := by
      congr 1
      funext q
      exact retentionRule_congr p _ _ (hstore q)
    have hheap : (fun q => (allWrites p)^[rest.count q] (heap.store ptr (allWrites p (heap ptr)) q))
        = fun q => (allWrites p)^[(ptr :: rest).count q] (heap q) := by
      funext q
      unfold Heap.store
      by_cases hq : q = ptr
      · subst hq
        rw [if_pos rfl, List.count_cons_self, Function.iterate_succ_apply]
      · rw [if_neg hq, List.count_cons_of_ne hq]
    unfold dataLoop
    rw [inputLoop_full p hs hap fuel (heap ptr) htyp
      (fun input hin xs hxs => hfuel ptr (List.mem_cons_self _ _) input hin xs hxs)]
    simp only []
    rw [keepItem_map, List.filter_cons]
    by_cases hk : retentionRule p (heap ptr) = true
    · rw [if_pos hk, if_pos hk, ih _ _ hty' hfuel', hfilter, hheap]
      simp
    · rw [if_neg hk, if_neg hk, ih _ _ hty' hfuel', hfilter, hheap]

/-- The budget `fuelBound` is enough. -/
theorem enoughFuel_fuelBound (p : Plugin) (heap : Heap) (data : List Ptr) (fuel : Nat)
    (h : fuelBound p heap data ≤ fuel) : EnoughFuel fuel p heap data := by
  intro ptr hptr input hin xs hxs
  have h1 : sliceLength (heap ptr input) ≤ (p.Input.map (fun input => sliceLength (heap ptr input))).sum :=
    List.single_le_sum (fun _ _ => Nat.zero_le _) _ (List.mem_map.mpr ⟨input, hin, rfl⟩)
  have h2 : (p.Input.map (fun input => sliceLength (heap ptr input))).sum
      ≤ (data.map (fun ptr => (p.Input.map (fun input => sliceLength (heap ptr input))).sum)).sum :=
    List.single_le_sum (fun _ _ => Nat.zero_le _) _
      (List.mem_map.mpr ⟨ptr, hptr, rfl⟩)
  have h3 : sliceLength (heap ptr input) = xs.length := by rw [hxs]; rfl
  unfold fuelBound at h
  omega

/-- The outcome of `Plugin.Do` on a configuration whose output fields are apart from its
input fields: the retained items and the copies performed. -/
theorem Do_spec (p : Plugin) (hs : SizesAgree p) (hap : OutputApart p) (fuel : Nat)
    (data : List Ptr) (heap : Heap)
    (hty : ∀ ptr ∈ data, TypesAgree p (heap ptr)) (hfuel : EnoughFuel fuel p heap data) :
    p.Do fuel heap data
      = .ok (data.filter (fun ptr => retentionRule p (heap ptr)),
          fun q => (allWrites p)^[data.count q] (heap q)) := by
  unfold Plugin.Do
  by_cases hd : data.length = 0
  · rw [if_pos hd]
    have : data = [] := List.length_eq_zero.mp hd
    subst this
    simp
  · rw [if_neg hd, dataLoop_spec p hs hap fuel data heap [] hty hfuel]
    simp

/-! ## The element loop on a field that is its own output -/

/-- When the output field is the input field itself, the element loop never ends once an
element from position `i` on is matched: every match appends one more matching element. -/
theorem sliceLoop_diverges (p : Plugin) (index : Nat) (input : String) (res : List Regexp)
    (hres : p.Regexp[index]? = some res) :
    ∀ (fuel : Nat) (item : DataItem) (i : Nat) (b : Bool) (l : List String),
      item input = some (.slice l) → (∃ x ∈ l.drop i, matchRegexes res x = true) →
      sliceLoop p index input (some input) fuel item i b = .error .outOfFuel := by
  intro fuel
  induction fuel with
  | zero => intro item i b l _ _; rfl
  | succ fuel ih =>
    intro item i b l hl hex
    obtain ⟨x, hx, hxm⟩ := hex
    have hi : i < l.length := by
      by_contra h
      rw [List.drop_eq_nil_of_le (by omega)] at hx
      exact List.not_mem_nil _ hx
    unfold sliceLoop
    simp only [ReflectDataField, hl, hres, dif_pos hi]
    rw [List.drop_eq_getElem_cons hi, List.mem_cons] at hx
    by_cases hm : matchRegexes res l[i] = true
    · rw [if_pos hm]
      apply ih _ _ _ (l ++ [l[i]]) (setField_same _ _ _)
      refine ⟨l[i], ?_, hm⟩
      rw [List.drop_append_of_le_length (by omega)]
      exact List.mem_append_right _ (List.mem_singleton_self _)
    · rw [if_neg hm]
      apply ih _ _ _ l hl
      rcases hx with hx | hx
      · exact absurd (hx ▸ hxm) hm
      · exact ⟨x, hx, hxm⟩

/-- On the item whose `TAGS` is `["apple", "banana"]`, the plugin that copies the matches of
`^a` in `TAGS` to `TAGS` itself exhausts every iteration budget. -/
theorem selfOutput_diverges (fuel : Nat) :
    selfOutputPlugin.Do fuel fruitHeap [0] = .error .outOfFuel := by
  have h := sliceLoop_diverges selfOutputPlugin 0 "TAGS" [anchoredRegexp "a"] rfl fuel
    fruitItem 0 false ["apple", "banana"] rfl ⟨"apple", by decide, by decide⟩
  have h2 : doIndex fuel selfOutputPlugin 0 "TAGS" fruitItem [false] = .error .outOfFuel := by
    unfold doIndex
    have e1 : (if selfOutputPlugin.Output.length > 0
        then (selfOutputPlugin.Output[0]?).map some else some none) = some (some "TAGS") := rfl
    rw [e1]
    have e2 : ReflectDataField fruitItem "TAGS" = some (.slice ["apple", "banana"]) := rfl
    simp only [e2, h]
  show dataLoop fuel selfOutputPlugin [0] fruitHeap [] = _
  unfold dataLoop
  have e3 : inputLoop fuel selfOutputPlugin selfOutputPlugin.Input 0 (fruitHeap 0)
      (List.replicate selfOutputPlugin.Input.length false) = .error .outOfFuel := by
    show inputLoop fuel selfOutputPlugin ["TAGS"] 0 fruitItem [false] = _
    unfold inputLoop
    rw [h2]
  rw [e3]

/-! ## Retention (C1) -/

/-- C1, the example of the specification: with pattern `hello` matching field `A` and pattern
`zzz` not matching field `B`, the item is retained when `match_all` is false. -/
theorem helloPlugin_any_retains (fuel : Nat) :
    returned ((helloPlugin false).Do fuel helloHeap [0]) = some [0] := by
  rfl

/-- C1, the example of the specification: the same item is dropped when `match_all` is true. -/
theorem helloPlugin_all_drops (fuel : Nat) :
    returned ((helloPlugin true).Do fuel helloHeap [0]) = some [] := by
  rfl

/-- C1 as stated fails: `Init` accepts `swapConfig` and builds `swapPlugin`; field `B` of the
item handed to `Plugin.Do` is not matched by `hello`, so with `match_all` the retention rule
does not hold for the item; yet `Plugin.Do` returns it, because index 0 has copied `A` into `B`
before index 1 reads `B`.  And on the accepted configuration `selfOutputPlugin` `Plugin.Do`
returns nothing at all. -/
theorem swapPlugin_retains_unmatched :
    Init (specCore helloSchema) swapConfig = .ok swapPlugin
      ∧ helloHeap 0 "B" = some (.str "nothing")
      ∧ matchRegexes [literalRegexp "hello"] "nothing" = false
      ∧ indexMatched swapPlugin (helloHeap 0) 1 = false
      ∧ retentionRule swapPlugin (helloHeap 0) = false
      ∧ returned (swapPlugin.Do 1 helloHeap [0]) = some [0]
      ∧ ∀ fuel, returned (selfOutputPlugin.Do fuel fruitHeap [0]) = none := by
  refine ⟨rfl, by decide, by decide, by decide, by decide, by decide, fun fuel => ?_⟩
  rw [selfOutput_diverges fuel]
  rfl

/-- C1 (amended): for every configuration that meets the size contract of `Init` and in which no
output field is also an input field, and every list of data items on which the paired fields
have equal kinds, `Plugin.Do` returns, given enough iterations, exactly the input items, in
their order, for which the retention rule holds. -/
theorem Do_returns_retained (p : Plugin) (heap : Heap) (data : List Ptr)
    (hs : SizesAgree p) (hap : OutputApart p) (hty : ∀ ptr ∈ data, TypesAgree p (heap ptr)) :
    ∃ fuel₀, ∀ fuel, fuel₀ ≤ fuel →
      returned (p.Do fuel heap data)
        = some (data.filter (fun ptr => retentionRule p (heap ptr))) := by
  refine ⟨fuelBound p heap data, fun fuel hfuel => ?_⟩
  rw [Do_spec p hs hap fuel data heap hty (enoughFuel_fuelBound p heap data fuel hfuel)]
  rfl

/-- C1 (amended), at the example of the specification. -/
theorem Do_returns_retained_witness :
    SizesAgree (helloPlugin false) ∧ OutputApart (helloPlugin false)
      ∧ (∀ ptr ∈ [0, 1], TypesAgree (helloPlugin false) (helloHeap ptr))
      ∧ ∃ fuel₀, ∀ fuel, fuel₀ ≤ fuel →
          returned ((helloPlugin false).Do fuel helloHeap [0, 1])
            = some ([0, 1].filter (fun ptr => retentionRule (helloPlugin false) (helloHeap ptr))) :=
  have h1 : SizesAgree (helloPlugin false) := by decide
  have h2 : OutputApart (helloPlugin false) := by decide
  have h3 : ∀ ptr ∈ [0, 1], TypesAgree (helloPlugin false) (helloHeap ptr) :=
    fun _ _ i _ ho => absurd ho (Nat.not_lt_zero i)
  ⟨h1, h2, h3, Do_returns_retained (helloPlugin false) helloHeap [0, 1] h1 h2 h3⟩

/-! ## Element-level copy of a sequence (C2) -/

/-- The copy at index `i` leaves `writtenValue` in its own output field. -/
theorem outputWrite_at (p : Plugin) (i : Nat) (item : DataItem) (o : String)
    (hO : p.Output[i]? = some o) :
    outputWrite p i item o = writtenValue p i (item (p.Input.getD i "")) (item o) := by
  unfold outputWrite writtenValue
  rw [hO]
  simp only []
  cases item (p.Input.getD i "") with
  | none => rfl
  | some v =>
    cases v with
    | str s =>
      simp only []
      by_cases hm : ((p.Regexp.getD i []).any fun re => re.MatchString s) = true
      · rw [if_pos hm, if_pos hm, setField_same]
      · rw [if_neg hm, if_neg hm]
    | slice xs =>
      simp only []
      cases hio : item o with
      | none => exact hio
      | some w =>
        cases w with
        | str t => exact hio
        | slice ys => exact setField_same _ _ _

/-- The copy at index `j` leaves alone every field other than `output[j]`. -/
theorem outputWrite_ne (p : Plugin) (j : Nat) (item : DataItem) (n : String)
    (hO : p.Output[j]? ≠ some n) : outputWrite p j item n = item n := by
  unfold outputWrite
  cases hj : p.Output[j]? with
  | none => rfl
  | some output =>
    have hne : n ≠ output := fun h => hO (by rw [hj, h])
    simp only []
    cases item (p.Input.getD j "") with
    | none => rfl
    | some v =>
      cases v with
      | str s =>
        simp only []
        split
        · exact setField_other _ _ _ _ hne
        · rfl
      | slice xs =>
        simp only []
        cases item output with
        | none => rfl
        | some w =>
          cases w with
          | str t => rfl
          | slice ys => exact setField_other _ _ _ _ hne

/-- When the output fields are pairwise distinct and apart from the input fields, a run of
copies over distinct indices leaves in `output[i]` what the copy at index `i` writes. -/
theorem foldl_outputWrite_at (p : Plugin) (hs : SizesAgree p) (hap : OutputApart p)
    (hnd : p.Output.Nodup) (i : Nat) (ho : i < p.Output.length) :
    ∀ (l : List Nat), l.Nodup → ∀ (item : DataItem), TypesAgree p item →
      l.foldl (fun it k => outputWrite p k it) item p.Output[i]
        = if i ∈ l then
            writtenValue p i (item (p.Input.getD i "")) (item p.Output[i])
          else item p.Output[i] := by
  have hi : i < p.Input.length := by rcases hs.2 with h | h <;> omega
  have hO : p.Output[i]? = some p.Output[i] := List.getElem?_eq_getElem ho
  have hinmem : p.Input.getD i "" ∈ p.Input := by
    rw [List.getD_eq_getElem?_getD, List.getElem?_eq_getElem hi]
    exact List.getElem_mem hi
  intro l
  induction l with
  | nil => intro _ item _; simp
  | cons j rest ih =>
    intro hl item hty
    obtain ⟨hj, hrest⟩ := List.nodup_cons.mp hl
    have hty' := hty.of_kind (outputWrite_kind p hs j item hty)
    rw [List.foldl_cons, ih hrest _ hty']
    by_cases hji : j = i
    · subst hji
      rw [if_neg hj, if_pos (List.mem_cons_self _ _)]
      exact outputWrite_at p j item _ hO
    · have hne : p.Output[j]? ≠ some p.Output[i] := by
        intro h
        obtain ⟨hjl, hje⟩ := List.getElem?_eq_some.mp h
        exact hji ((hnd.getElem_inj_iff).mp hje)
      have e1 : outputWrite p j item p.Output[i] = item p.Output[i] :=
        outputWrite_ne p j item _ hne
      have e2 : outputWrite p j item (p.Input.getD i "") = item (p.Input.getD i "") :=
        outputWrite_other p j item _ (fun h => hap _ h hinmem)
      rw [e1, e2]
      have hmem : i ∈ j :: rest ↔ i ∈ rest := by
        rw [List.mem_cons]
        exact ⟨fun h => h.resolve_left (fun h' => hji h'.symm), Or.inr⟩
      by_cases hir : i ∈ rest
      · rw [if_pos hir, if_pos (hmem.mpr hir)]
      · rw [if_neg hir, if_neg (fun h => hir (hmem.mp h))]

/-- C2 as stated fails: `Init` accepts `sharedOutputConfig` and builds `sharedOutputPlugin`;
its `Input[0]` field is the sequence `["apple", "banana"]` of which `^a` matches `"apple"` only,
and its output field is empty; after `Plugin.Do` the output field is `["apple", "banana"]`,
because index 1 appends to the same field. -/
theorem sharedOutput_holds_more :
    Init (specCore fruitSchema) sharedOutputConfig = .ok sharedOutputPlugin
      ∧ fruitHeap 0 "TAGS" = some (.slice ["apple", "banana"])
      ∧ fruitHeap 0 "OUT" = some (.slice [])
      ∧ ["apple", "banana"].filter (matchRegexes [anchoredRegexp "a"]) = ["apple"]
      ∧ fieldAfter (sharedOutputPlugin.Do 3 fruitHeap [0]) 0 "OUT"
          = some (some (.slice ["apple", "banana"])) := by
  refine ⟨rfl, by decide, by decide, by decide, by decide⟩

/-- C2 (amended): when the configuration meets the size contract of `Init`, its output fields
are pairwise distinct and none of them is an input field, the paired fields have equal kinds and
the item occurs once in `data`, then for every index `i` whose input field is a sequence `xs`,
`Plugin.Do` leaves in the field `Output[i]` its previous content `ys` followed by exactly the
elements of `xs` that some pattern of `Regexp[i]` matches, in their order. -/
theorem Do_appends_matching (p : Plugin) (heap : Heap) (data : List Ptr)
    (hs : SizesAgree p) (hap : OutputApart p) (hnd : p.Output.Nodup)
    (hty : ∀ ptr ∈ data, TypesAgree p (heap ptr)) (hdn : data.Nodup)
    (ptr : Ptr) (hptr : ptr ∈ data) (i : Nat) (hi : i < p.Input.length) (ho : i < p.Output.length)
    (xs ys : List String) (hin : heap ptr p.Input[i] = some (.slice xs))
    (hout : heap ptr p.Output[i] = some (.slice ys)) :
    ∃ fuel₀, ∀ fuel, fuel₀ ≤ fuel →
      fieldAfter (p.Do fuel heap data) ptr p.Output[i]
        = some (some (.slice (ys ++ xs.filter (fun x => (p.Regexp.getD i []).any
            (fun re => re.MatchString x))))) := by
  refine ⟨fuelBound p heap data, fun fuel hfuel => ?_⟩
  rw [Do_spec p hs hap fuel data heap hty (enoughFuel_fuelBound p heap data fuel hfuel)]
  simp only [fieldAfter]
  rw [List.count_eq_one_of_mem hdn hptr, Function.iterate_one]
  unfold allWrites
  rw [foldl_outputWrite_at p hs hap hnd i ho _ (List.nodup_range _) _ (hty ptr hptr),
    if_pos (List.mem_range.mpr hi)]
  have hgetI : p.Input.getD i "" = p.Input[i] := by
    rw [List.getD_eq_getElem?_getD, List.getElem?_eq_getElem hi]; rfl
  rw [hgetI, hin, hout]
  rfl

/-- C2 (amended), at the example of the specification: the sequence `["apple", "banana"]`,
pattern `^a` and an empty output field. -/
theorem Do_appends_matching_witness :
    ∃ fuel₀, ∀ fuel, fuel₀ ≤ fuel →
      fieldAfter (fruitPlugin.Do fuel fruitHeap [0]) 0 "OUT"
        = some (some (.slice ([] ++ ["apple", "banana"].filter
            (fun x => [anchoredRegexp "a"].any (fun re => re.MatchString x))))) :=
  Do_appends_matching fruitPlugin fruitHeap [0]
    (by decide) (by decide) (by decide)
    (fun _ _ i hi _ => by
      have hi' : i < 1 := hi
      interval_cases i; rfl)
    (by decide) 0 (by decide) 0 (by decide) (by decide) ["apple", "banana"] [] rfl rfl

/-- C2, the example of the specification: the output field is `["apple"]`. -/
theorem fruitPlugin_output :
    fieldAfter (fruitPlugin.Do 3 fruitHeap [0]) 0 "OUT" = some (some (.slice ["apple"])) := by
  decide

/-! ## `Include` and `Require` (C7, C8) -/

/-- C7 as stated fails: with `Include = false` the item, which satisfies the match rule, is
still in the result of `Plugin.Do`. -/
theorem includeFalse_keeps_match :
    (includePlugin false).GetInclude = false
      ∧ retentionRule (includePlugin false) (helloHeap 0) = true
      ∧ returned ((includePlugin false).Do 1 helloHeap [0]) = some [0] := by
  refine ⟨rfl, by decide, by decide⟩

/-- C7 (amended): `Plugin.Do` does not apply the inclusion gate.  Under the contracts of C1, an
item of `data` that satisfies the match rule is kept in the result of `Plugin.Do` when `Include`
is true and also when `Include` is false; `GetInclude` only reports the flag. -/
theorem Do_keeps_match_whatever_include (p : Plugin) (heap : Heap) (data : List Ptr)
    (hs : SizesAgree p) (hap : OutputApart p) (hty : ∀ ptr ∈ data, TypesAgree p (heap ptr))
    (ptr : Ptr) (hptr : ptr ∈ data) (hrule : retentionRule p (heap ptr) = true) :
    ∃ fuel₀, ∀ fuel, fuel₀ ≤ fuel → ∀ incl : Bool,
      ({ p with Include := incl }).GetInclude = incl
      ∧ ∃ out, returned (({ p with Include := incl }).Do fuel heap data) = some out ∧ ptr ∈ out := by
  refine ⟨fuelBound p heap data, fun fuel hfuel incl => ⟨rfl, ?_⟩⟩
  have hspec := Do_spec { p with Include := incl } hs hap fuel data heap hty
    (enoughFuel_fuelBound p heap data fuel hfuel)
  rw [hspec]
  exact ⟨_, rfl, List.mem_filter.mpr ⟨hptr, hrule⟩⟩

/-- C7 (amended), at an item matched by `hello`. -/
theorem Do_keeps_match_whatever_include_witness :
    ∃ fuel₀, ∀ fuel, fuel₀ ≤ fuel → ∀ incl : Bool,
      ({ includePlugin true with Include := incl }).GetInclude = incl
      ∧ ∃ out, returned (({ includePlugin true with Include := incl }).Do fuel helloHeap [0])
          = some out ∧ 0 ∈ out :=
  Do_keeps_match_whatever_include (includePlugin true) helloHeap [0]
    (by decide) (by decide)
    (fun _ _ i _ ho => absurd ho (Nat.not_lt_zero i)) 0 (by decide) (by decide)

/-- The element loop reads `Regexp` only. -/
theorem sliceLoop_congr (p q : Plugin) (hR : p.Regexp = q.Regexp) (index : Nat)
    (input : String) (ro : Option String) :
    ∀ (fuel : Nat) (item : DataItem) (i : Nat) (b : Bool),
      sliceLoop p index input ro fuel item i b = sliceLoop q index input ro fuel item i b := by
  intro fuel
  induction fuel with
  | zero => intro item i b; rfl
  | succ fuel ih =>
    intro item i b
    unfold sliceLoop
    simp only [hR, ih]

/-- One index reads `Output` and `Regexp` only. -/
theorem doIndex_congr (p q : Plugin) (hO : p.Output = q.Output) (hR : p.Regexp = q.Regexp)
    (fuel index : Nat) (input : String) (item : DataItem) (matched : List Bool) :
    doIndex fuel p index input item matched = doIndex fuel q index input item matched := by
  unfold doIndex
  simp only [hO, hR, sliceLoop_congr p q hR]

/-- The loop over the input fields reads `Output` and `Regexp` only. -/
theorem inputLoop_congr (p q : Plugin) (hO : p.Output = q.Output) (hR : p.Regexp = q.Regexp)
    (fuel : Nat) :
    ∀ (rest : List String) (index : Nat) (item : DataItem) (matched : List Bool),
      inputLoop fuel p rest index item matched = inputLoop fuel q rest index item matched := by
  intro rest
  induction rest with
  | nil => intro index item matched; rfl
  | cons input rest ih =>
    intro index item matched
    unfold inputLoop
    simp only [doIndex_congr p q hO hR, ih]

/-- The loop over the data items reads `Input`, `Output`, `MatchAll` and `Regexp` only. -/
theorem dataLoop_congr (p q : Plugin) (hI : p.Input = q.Input) (hO : p.Output = q.Output)
    (hM : p.MatchAll = q.MatchAll) (hR : p.Regexp = q.Regexp) (fuel : Nat) :
    ∀ (data : List Ptr) (heap : Heap) (temp : List Ptr),
      dataLoop fuel p data heap temp = dataLoop fuel q data heap temp := by
  intro data
  induction data with
  | nil => intro heap temp; rfl
  | cons ptr rest ih =>
    intro heap temp
    unfold dataLoop
    simp only [hI, inputLoop_congr p q hO hR, keepItem, hM, ih]

/-- The loop over the data items touches the items of `data` only. -/
theorem dataLoop_frame (p : Plugin) (fuel : Nat) :
    ∀ (data : List Ptr) (heap : Heap) (temp out : List Ptr) (heap' : Heap),
      dataLoop fuel p data heap temp = .ok (out, heap') →
      ∀ ptr, ptr ∉ data → heap' ptr = heap ptr ∧ (ptr ∈ out → ptr ∈ temp) := by
  intro data
  induction data with
  | nil =>
    intro heap temp out heap' h ptr _
    simp only [dataLoop, Except.ok.injEq, Prod.mk.injEq] at h
    obtain ⟨h1, h2⟩ := h
    subst h1 h2
    exact ⟨rfl, id⟩
  | cons ptr0 rest ih =>
    intro heap temp out heap' h ptr hptr
    have hne : ptr ≠ ptr0 := fun e => hptr (e ▸ List.mem_cons_self _ _)
    have hrest : ptr ∉ rest := fun e => hptr (List.mem_cons_of_mem _ e)
    unfold dataLoop at h
    cases hloop : inputLoop fuel p p.Input 0 (heap ptr0) (List.replicate p.Input.length false) with
    | error e => rw [hloop] at h; exact Except.noConfusion h
    | ok r =>
      obtain ⟨item', matched⟩ := r
      rw [hloop] at h
      simp only [] at h
      have hstore : heap.store ptr0 item' ptr = heap ptr := by
        unfold Heap.store; rw [if_neg hne]
      by_cases hk : keepItem p matched = true
      · rw [if_pos hk] at h
        obtain ⟨h1, h2⟩ := ih _ _ _ _ h ptr hrest
        refine ⟨h1.trans hstore, fun ho => ?_⟩
        rcases List.mem_append.mp (h2 ho) with h3 | h3
        · exact h3
        · exact absurd (List.mem_singleton.mp h3) hne
      · rw [if_neg hk] at h
        obtain ⟨h1, h2⟩ := ih _ _ _ _ h ptr hrest
        exact ⟨h1.trans hstore, h2⟩

/-- C8 as stated fails: stage 2 requires stage 1, stage 1 drops the item (a negative outcome),
and `Plugin.Do` of stage 2, handed the item, returns it and writes its field `C`. -/
theorem stageTwo_evaluates_unrequired :
    stageOne.ID ∈ stageTwo.GetRequire
      ∧ returned (stageOne.Do 1 helloHeap [0]) = some []
      ∧ fieldAfter (stageOne.Do 1 helloHeap [0]) 0 "C" = some (some (.str ""))
      ∧ returned (stageTwo.Do 1 helloHeap [0]) = some [0]
      ∧ fieldAfter (stageTwo.Do 1 helloHeap [0]) 0 "C" = some (some (.str "hello world")) := by
  refine ⟨by decide, by decide, by decide, by decide, by decide⟩

/-- C8 (amended): `Plugin.Do` does not read `Require`: its outcome is the same whatever
`Require` holds, so it evaluates every item of the list it is handed.  What it leaves alone are
the items that are not in that list: none of them is in the returned slice and none of their
fields is written, whatever the patterns are. -/
theorem Do_ignores_require (p : Plugin) (fuel : Nat) (heap : Heap) (data : List Ptr) :
    (∀ req, ({ p with Require := req }).Do fuel heap data = p.Do fuel heap data)
    ∧ ∀ ptr, ptr ∉ data →
        (∀ out, returned (p.Do fuel heap data) = some out → ptr ∉ out)
        ∧ ∀ name, fieldAfter (p.Do fuel heap data) ptr name
            = (returned (p.Do fuel heap data)).map (fun _ => heap ptr name) := by
  refine ⟨fun req => ?_, fun ptr hptr => ?_⟩
  · unfold Plugin.Do
    rw [dataLoop_congr { p with Require := req } p rfl rfl rfl rfl]
  · unfold Plugin.Do
    by_cases hd : data.length = 0
    · rw [if_pos hd]
      exact ⟨fun out h => by simp only [returned, Option.some.injEq] at h; subst h; simp,
        fun name => rfl⟩
    · rw [if_neg hd]
      cases hloop : dataLoop fuel p data heap [] with
      | error e => exact ⟨fun out h => by simp [returned] at h, fun name => rfl⟩
      | ok r =>
        obtain ⟨out', heap'⟩ := r
        obtain ⟨h1, h2⟩ := dataLoop_frame p fuel data heap [] out' heap' hloop ptr hptr
        refine ⟨fun out h => ?_, fun name => ?_⟩
        · simp only [returned, Option.some.injEq] at h
          subst h
          exact fun ho => by simpa using h2 ho
        · simp only [fieldAfter, returned, Option.map_some', h1]

/-- C8 (amended), at stage 2 handed the item at address 0: the item at address 1 is left
alone. -/
theorem Do_ignores_require_witness :
    (1 : Ptr) ∉ [0]
      ∧ (∀ out, returned (stageTwo.Do 1 helloHeap [0]) = some out → (1 : Ptr) ∉ out)
      ∧ ∀ name, fieldAfter (stageTwo.Do 1 helloHeap [0]) 1 name
          = (returned (stageTwo.Do 1 helloHeap [0])).map (fun _ => helloHeap 1 name) :=
  ⟨by decide, (Do_ignores_require stageTwo 1 helloHeap [0]).2 1 (by decide)⟩

/-! ## Termination (C10) -/

/-- C10 fails on the code: `Init` accepts the configuration `input: ["TAGS"]`,
`output: ["TAGS"]`, `regexp: ["^a"]`, and on the item whose `TAGS` is `["apple", "banana"]`
`Plugin.Do` does not return, whatever the number of iterations allowed: each matched element is
appended to the sequence the loop is reading. -/
theorem selfOutput_never_returns :
    Init (specCore fruitSchema) selfOutputConfig = .ok selfOutputPlugin
      ∧ ∀ fuel, selfOutputPlugin.Do fuel fruitHeap [0] = .error .outOfFuel :=
  ⟨rfl, selfOutput_diverges⟩

/-! ## The size check of `Init` (C4, C9) -/

/-- The loop of regexpmatch.go:287-294 ends with a minimum that is at most every length and a
maximum that is at least every length; each of them is its starting value or one of the
lengths. -/
theorem lengthBounds_spec :
    ∀ (l : List Nat) (mn mx : Nat),
      (lengthBounds l (mn, mx)).1 ≤ mn ∧ mx ≤ (lengthBounds l (mn, mx)).2
      ∧ (∀ x ∈ l, (lengthBounds l (mn, mx)).1 ≤ x ∧ x ≤ (lengthBounds l (mn, mx)).2)
      ∧ ((lengthBounds l (mn, mx)).1 = mn ∨ (lengthBounds l (mn, mx)).1 ∈ l)
      ∧ ((lengthBounds l (mn, mx)).2 = mx ∨ (lengthBounds l (mn, mx)).2 ∈ l) := by
  intro l
  induction l with
  | nil => intro mn mx; simp [lengthBounds]
  | cons a rest ih =>
    intro mn mx
    unfold lengthBounds
    have e1 : (if a < mn then a else mn) ≤ mn ∧ (if a < mn then a else mn) ≤ a
        ∧ ((if a < mn then a else mn) = mn ∨ (if a < mn then a else mn) = a) := by
      split <;> omega
    have e2 : mx ≤ (if a > mx then a else mx) ∧ a ≤ (if a > mx then a else mx)
        ∧ ((if a > mx then a else mx) = mx ∨ (if a > mx then a else mx) = a) := by
      split <;> omega
    obtain ⟨h1, h2, h3, h4, h5⟩ := ih (if a < mn then a else mn) (if a > mx then a else mx)
    generalize (if a < mn then a else mn) = mn' at *
    generalize (if a > mx then a else mx) = mx' at *
    refine ⟨by omega, by omega, ?_, ?_, ?_⟩
    · intro x hx
      rcases List.mem_cons.mp hx with hxa | hxr
      · subst hxa; constructor <;> omega
      · exact h3 x hxr
    · rcases h4 with h4 | h4
      · rcases e1.2.2 with e | e
        · left; omega
        · right; rw [h4, e]; exact List.mem_cons_self _ _
      · right; exact List.mem_cons_of_mem _ h4
    · rcases h5 with h5 | h5
      · rcases e2.2.2 with e | e
        · left; omega
        · right; rw [h5, e]; exact List.mem_cons_self _ _
      · right; exact List.mem_cons_of_mem _ h5

/-- Two different lengths in the list make the minimum differ from the maximum. -/
theorem lengthBounds_ne (l : List Nat) (a b : Nat) (ha : a ∈ l) (hb : b ∈ l) (hab : a ≠ b) :
    (lengthBounds l (10000, 0)).1 ≠ (lengthBounds l (10000, 0)).2 := by
  obtain ⟨_, _, h, _, _⟩ := lengthBounds_spec l 10000 0
  have h1 := h a ha
  have h2 := h b hb
  omega

/-- C4: whenever the number of input field names differs from the number of pattern groups,
`Init` returns an error, whatever the other parameters are and whether or not `output` is
set. -/
theorem Init_rejects_size_mismatch (core : Core) (pluginConfig : PluginConfig)
    (h : (readParams core pluginConfig).1.Input.length
      ≠ (readParams core pluginConfig).1.Regexp.length) :
    ∃ err, Init core pluginConfig = .error err := by
  unfold Init
  simp only []
  cases core.CheckPluginParams (readParams core pluginConfig).2 pluginConfig.Params with
  | some err => exact ⟨_, rfl⟩
  | none =>
    simp only []
    have hne : (lengthBounds (checkedLengths (readParams core pluginConfig).1
        (readParams core pluginConfig).2) (10000, 0)).1
        ≠ (lengthBounds (checkedLengths (readParams core pluginConfig).1
        (readParams core pluginConfig).2) (10000, 0)).2 := by
      apply lengthBounds_ne _ _ _ _ _ h
      · unfold checkedLengths; split <;> simp
      · unfold checkedLengths; split <;> simp
    by_cases ho : (readParams core pluginConfig).2.get "output" = 0
    · rw [if_pos ho, if_pos hne]
      exact ⟨_, rfl⟩
    · rw [if_neg ho, if_pos hne]
      exact ⟨_, rfl⟩

/-- C4, at a configuration with two input fields and one pattern. -/
theorem Init_rejects_size_mismatch_witness :
    (readParams (specCore fruitSchema) mismatchConfig).1.Input.length
        ≠ (readParams (specCore fruitSchema) mismatchConfig).1.Regexp.length
      ∧ ∃ err, Init (specCore fruitSchema) mismatchConfig = .error err :=
  ⟨by decide, Init_rejects_size_mismatch (specCore fruitSchema) mismatchConfig (by decide)⟩

/-- With the minimum started at 10000, equal lengths above 10000 give a minimum of 10000 and a
maximum of `n`. -/
theorem lengthBounds_large (n : Nat) (hn : 10000 < n) :
    lengthBounds [n, n] (10000, 0) = (10000, n)
      ∧ lengthBounds [n, n, n] (10000, 0) = (10000, n) := by
  have h1 : ¬ n < 10000 := by omega
  have h2 : n > 0 := by omega
  have h3 : ¬ n > n := by omega
  simp [lengthBounds, h1, h2]

/-- Equal lengths up to 10000 pass the comparison. -/
theorem lengthBounds_small (n : Nat) (hn : n ≤ 10000) (l : List Nat) (hl : ∀ x ∈ l, x = n)
    (hne : n ∈ l) :
    (lengthBounds l (10000, 0)).1 = (lengthBounds l (10000, 0)).2 := by
  obtain ⟨_, _, h3, h4, h5⟩ := lengthBounds_spec l 10000 0
  have h6 := h3 n hne
  have h7 : (lengthBounds l (10000, 0)).1 = 10000 ∨ (lengthBounds l (10000, 0)).1 = n :=
    h4.imp id (hl _)
  have h8 : (lengthBounds l (10000, 0)).2 = 0 ∨ (lengthBounds l (10000, 0)).2 = n :=
    h5.imp id (hl _)
  omega

/-- On a configuration that passes the parameter check and whose lists all have the same length
`n > 10000`, `Init` returns the size-mismatch error. -/
theorem Init_large_sizeMismatch (core : Core) (pluginConfig : PluginConfig) (n : Nat)
    (hcheck : core.CheckPluginParams (readParams core pluginConfig).2 pluginConfig.Params = none)
    (hI : (readParams core pluginConfig).1.Input.length = n)
    (hR : (readParams core pluginConfig).1.Regexp.length = n)
    (hO : (readParams core pluginConfig).2.get "output" = 0 →
      (readParams core pluginConfig).1.Output.length = n)
    (hn : 10000 < n) :
    Init core pluginConfig = .error .sizeMismatch := by
  unfold Init
  simp only [hcheck]
  obtain ⟨l2, l3⟩ := lengthBounds_large n hn
  by_cases ho : (readParams core pluginConfig).2.get "output" = 0
  · have hl : checkedLengths (readParams core pluginConfig).1 (readParams core pluginConfig).2
        = [n, n, n] := by
      unfold checkedLengths; rw [if_pos ho, hI, hR, hO ho]
    rw [if_pos ho, hl, l3, if_pos (by simp only []; omega)]
  · have hl : checkedLengths (readParams core pluginConfig).1 (readParams core pluginConfig).2
        = [n, n] := by
      unfold checkedLengths; rw [if_neg ho, hI, hR]
    rw [if_neg ho, hl, l2, if_pos (by simp only []; omega)]

/-- On a configuration whose lists all have the same length `n ≤ 10000`, `Init` does not
return the size-mismatch error. -/
theorem Init_small_no_sizeMismatch (core : Core) (pluginConfig : PluginConfig) (n : Nat)
    (hI : (readParams core pluginConfig).1.Input.length = n)
    (hR : (readParams core pluginConfig).1.Regexp.length = n)
    (hO : (readParams core pluginConfig).2.get "output" = 0 →
      (readParams core pluginConfig).1.Output.length = n)
    (hn : n ≤ 10000) :
    Init core pluginConfig ≠ .error .sizeMismatch := by
  unfold Init
  simp only []
  cases core.CheckPluginParams (readParams core pluginConfig).2 pluginConfig.Params with
  | some err => intro h; injection h with h; exact InitError.noConfusion h
  | none =>
    simp only []
    by_cases ho : (readParams core pluginConfig).2.get "output" = 0
    · have hl : checkedLengths (readParams core pluginConfig).1 (readParams core pluginConfig).2
          = [n, n, n] := by
        unfold checkedLengths; rw [if_pos ho, hI, hR, hO ho]
      rw [if_pos ho, hl, if_neg (not_not.mpr (lengthBounds_small n hn [n, n, n] (by simp) (by simp)))]
      cases core.IsDataFieldsTypesEqual (readParams core pluginConfig).1.Input
          (readParams core pluginConfig).1.Output with
      | error err => intro h; injection h with h; exact InitError.noConfusion h
      | ok r => intro h; exact Except.noConfusion h
    · have hl : checkedLengths (readParams core pluginConfig).1 (readParams core pluginConfig).2
          = [n, n] := by
        unfold checkedLengths; rw [if_neg ho, hI, hR]
      rw [if_neg ho, hl, if_neg (not_not.mpr (lengthBounds_small n hn [n, n] (by simp) (by simp)))]
      intro h; exact Except.noConfusion h

/-- C9 fails on the code: `largeConfig` passes the parameter check and has 10001 input fields
and 10001 pattern groups, and `Init` returns the size-mismatch error, because `minLength` starts
at 10000 and no length is below it. -/
theorem largeConfig_sizeMismatch :
    (specCore fruitSchema).CheckPluginParams (readParams (specCore fruitSchema) largeConfig).2
        largeConfig.Params = none
      ∧ (readParams (specCore fruitSchema) largeConfig).1.Input.length = 10001
      ∧ (readParams (specCore fruitSchema) largeConfig).1.Regexp.length = 10001
      ∧ Init (specCore fruitSchema) largeConfig = .error .sizeMismatch := by
  have hI : (readParams (specCore fruitSchema) largeConfig).1.Input
      = List.replicate 10001 "TAGS" := rfl
  have hR : (readParams (specCore fruitSchema) largeConfig).1.Regexp
      = specExtractRegexpsIntoArrays (List.replicate 10001 "^a") true := rfl
  have hI' : (readParams (specCore fruitSchema) largeConfig).1.Input.length = 10001 := by
    rw [hI, List.length_replicate]
  have hR' : (readParams (specCore fruitSchema) largeConfig).1.Regexp.length = 10001 := by
    rw [hR]; unfold specExtractRegexpsIntoArrays; rw [List.length_map, List.length_replicate]
  have hflag : (readParams (specCore fruitSchema) largeConfig).2.get "output" ≠ 0 := by decide
  exact ⟨by decide, hI', hR',
    Init_large_sizeMismatch _ _ 10001 (by decide) hI' hR' (fun h => absurd h hflag) (by omega)⟩

/-! ## The scheduling loop (C3, C5, C6) -/

/-- An `int64` difference of two readings in range is the difference. -/
theorem wrapInt64_sub (a b : Int) (ha : unixInRange a) (hb : unixInRange b) :
    wrapInt64 (a - b) = a - b := by
  unfold unixInRange at ha hb
  unfold wrapInt64
  omega

theorem unixInRange_zeroTime : unixInRange zeroTimeUnix := by
  unfold unixInRange zeroTimeUnix
  omega

/-- A property kept by every step of a loop over a list is kept by the loop. -/
theorem foldl_invariant {α β : Type} (P : β → Prop) (step : β → α → β) :
    ∀ (l : List α), (∀ b, ∀ a ∈ l, P b → P (step b a)) → ∀ b, P b → P (l.foldl step b) := by
  intro l
  induction l with
  | nil => intro _ b hb; exact hb
  | cons a rest ih =>
    intro h b hb
    rw [List.foldl_cons]
    exact ih (fun b' a' ha' => h b' a' (List.mem_cons_of_mem _ ha')) _
      (h b a (List.mem_cons_self _ _) hb)

/-- The launches of a flow after one iteration of the loop body. -/
theorem flowIter_launchTimes (currentUnix number : Int) (st : Scheduler) (flow : Flow)
    (u : Nat) :
    launchTimes (flowIter currentUnix number st flow) u
      = if isDue currentUnix (st.flowsStates flow.UUID) number flow = true ∧ flow.UUID = u then
          launchTimes st u ++ [currentUnix]
        else launchTimes st u := by
  unfold flowIter launchTimes
  by_cases hd : isDue currentUnix (st.flowsStates flow.UUID) number flow = true
  · rw [if_pos hd]
    by_cases hu : flow.UUID = u
    · rw [if_pos ⟨hd, hu⟩]
      simp [List.filter_append, hu]
    · rw [if_neg (fun h => hu h.2)]
      simp [List.filter_append, hu]
  · rw [if_neg hd, if_neg (fun h => hd h.1)]

/-- The entry of a flow in `flowsStates` after one iteration of the loop body. -/
theorem flowIter_flowsStates (currentUnix number : Int) (st : Scheduler) (flow : Flow)
    (u : Nat) :
    (flowIter currentUnix number st flow).flowsStates u
      = if isDue currentUnix (st.flowsStates flow.UUID) number flow = true ∧ flow.UUID = u then
          currentUnix
        else st.flowsStates u := by
  unfold flowIter
  by_cases hd : isDue currentUnix (st.flowsStates flow.UUID) number flow = true
  · rw [if_pos hd]
    by_cases hu : flow.UUID = u
    · rw [if_pos ⟨hd, hu⟩]; simp [hu]
    · rw [if_neg (fun h => hu h.2)]
      have : ¬ u = flow.UUID := fun h => hu h.symm
      simp [this]
  · rw [if_neg hd, if_neg (fun h => hd h.1)]

/-- Flows with different UUIDs: the flow of a given UUID is unique in the list. -/
theorem flow_unique (flows : List Flow) (hnd : (flows.map Flow.UUID).Nodup) (flow g : Flow)
    (hf : flow ∈ flows) (hg : g ∈ flows) (hu : g.UUID = flow.UUID) : g = flow :=
  List.inj_on_of_nodup_map hnd hg hf hu

/-- C3 as stated fails: for a flow with `Number = 0` and a run counter of zero, on a tick where
`currentTime - lastRunTime` exceeds `Interval` the due-ness test is false, and the loop launches
nothing. -/
theorem unlimitedFlow_not_due :
    unlimitedFlow.Number = 0
      ∧ (1000 : Int) - zeroTimeUnix > unlimitedFlow.Interval
      ∧ isDue 1000 zeroTimeUnix 0 unlimitedFlow = false
      ∧ (RunApp [unlimitedFlow] (ticksAt 0 [1000, 2000, 3000])).launched = [] := by
  refine ⟨rfl, by decide, by decide, by decide⟩

/-- C3 (amended): for every flow with `Number = 0` the due-ness test of `RunApp` is false on
every tick on which the run counter is not negative, whatever the times are, so the loop never
launches the flow. -/
theorem unlimited_never_due (flow : Flow) (h0 : flow.Number = 0) :
    (∀ currentUnix lastUnix number, 0 ≤ number →
      isDue currentUnix lastUnix number flow = false)
    ∧ ∀ (flows : List Flow) (ticks : List Tick), (flows.map Flow.UUID).Nodup → flow ∈ flows →
        (∀ t ∈ ticks, 0 ≤ t.GetNumber flow.UUID) →
        launchTimes (RunApp flows ticks) flow.UUID = [] := by
  have hdue : ∀ currentUnix lastUnix number, 0 ≤ number →
      isDue currentUnix lastUnix number flow = false := by
    intro currentUnix lastUnix number hn
    unfold isDue
    rw [h0]
    have : ¬ number < 0 := by omega
    simp [this]
  refine ⟨hdue, fun flows ticks hnd hf hticks => ?_⟩
  unfold RunApp
  refine foldl_invariant (fun st => launchTimes st flow.UUID = []) (tick flows) ticks ?_ _ rfl
  intro st t ht hst
  unfold tick
  refine foldl_invariant (fun st => launchTimes st flow.UUID = []) _ flows ?_ _ hst
  intro st' g hg hst'
  rw [flowIter_launchTimes, hst']
  by_cases hu : g.UUID = flow.UUID
  · have hgf := flow_unique flows hnd flow g hf hg hu
    subst hgf
    rw [if_neg]
    intro h
    rw [hdue _ _ _ (hticks t ht)] at h
    exact Bool.noConfusion h.1
  · rw [if_neg (fun h => hu h.2)]

/-- C3 (amended), at a flow with `Interval = 60` and `Number = 0`. -/
theorem unlimited_never_due_witness :
    unlimitedFlow.Number = 0
      ∧ (∀ currentUnix lastUnix number, 0 ≤ number →
          isDue currentUnix lastUnix number unlimitedFlow = false)
      ∧ ∀ (flows : List Flow) (ticks : List Tick), (flows.map Flow.UUID).Nodup →
          unlimitedFlow ∈ flows → (∀ t ∈ ticks, 0 ≤ t.GetNumber unlimitedFlow.UUID) →
          launchTimes (RunApp flows ticks) unlimitedFlow.UUID = [] :=
  ⟨rfl, unlimited_never_due unlimitedFlow rfl⟩

/-- Consecutive launches of a flow are related by whatever the due-ness test guarantees between
the stored time and the clock reading. -/
theorem launches_chain (R : Int → Int → Prop) (Q : Int → Prop) (flows : List Flow)
    (hnd : (flows.map Flow.UUID).Nodup) (flow : Flow) (hf : flow ∈ flows) (ticks : List Tick)
    (hQ0 : Q zeroTimeUnix) (hQ : ∀ t ∈ ticks, Q t.currentUnix)
    (hR : ∀ currentUnix lastUnix number, Q currentUnix → Q lastUnix →
      isDue currentUnix lastUnix number flow = true → R lastUnix currentUnix) :
    List.Chain' R (launchTimes (RunApp flows ticks) flow.UUID) := by
  have hinit : SpacedLaunches R Q flow.UUID Scheduler.initial :=
    ⟨List.chain'_nil, fun t ht => by simp [launchTimes, Scheduler.initial] at ht, hQ0⟩
  have key : SpacedLaunches R Q flow.UUID (RunApp flows ticks) := by
    unfold RunApp
    refine foldl_invariant (SpacedLaunches R Q flow.UUID) (tick flows) ticks ?_ _ hinit
    intro st t ht hst
    unfold tick
    refine foldl_invariant (SpacedLaunches R Q flow.UUID) _ flows ?_ _ hst
    intro st' g hg ⟨hc, hl, hin⟩
    unfold SpacedLaunches
    simp only [flowIter_launchTimes, flowIter_flowsStates]
    by_cases hdue : isDue t.currentUnix (st'.flowsStates g.UUID) (t.GetNumber g.UUID) g = true
        ∧ g.UUID = flow.UUID
    · rw [if_pos hdue, if_pos hdue]
      obtain ⟨hd, hu⟩ := hdue
      have hgf := flow_unique flows hnd flow g hf hg hu
      subst hgf
      refine ⟨?_, ?_, hQ t ht⟩
      · rw [List.chain'_append]
        refine ⟨hc, List.chain'_singleton _, ?_⟩
        intro x hx y hy
        simp only [List.head?_cons, Option.mem_def, Option.some.injEq] at hy
        subst hy
        have hx' := hl x hx
        rw [← hx']
        exact hR _ _ _ (hQ t ht) hin hd
      · intro x hx
        simp only [List.getLast?_append, List.getLast?_singleton, Option.mem_def] at hx
        simp at hx
        exact hx
    · rw [if_neg hdue, if_neg hdue]
      exact ⟨hc, hl, hin⟩
  exact key.1

/-- C5: for every flow of a list of flows with distinct UUIDs and every sequence of ticks,
whatever the run counters read, two consecutive launches of the flow at `t1` and then `t2`
satisfy `t2 - t1 > Interval` in the `int64` arithmetic of the loop; when the clock readings are
in range, so that the difference does not wrap, they satisfy `t2 - t1 > Interval`. -/
theorem launches_spaced (flows : List Flow) (hnd : (flows.map Flow.UUID).Nodup) (flow : Flow)
    (hf : flow ∈ flows) (ticks : List Tick) :
    List.Chain' (fun t1 t2 => wrapInt64 (t2 - t1) > flow.Interval)
      (launchTimes (RunApp flows ticks) flow.UUID)
    ∧ ((∀ t ∈ ticks, unixInRange t.currentUnix) →
        List.Chain' (fun t1 t2 => t2 - t1 > flow.Interval)
          (launchTimes (RunApp flows ticks) flow.UUID)) := by
  constructor
  · refine launches_chain _ (fun _ => True) flows hnd flow hf ticks trivial
      (fun _ _ => trivial) ?_
    intro currentUnix lastUnix number _ _ hd
    unfold isDue at hd
    simp only [Bool.and_eq_true, decide_eq_true_eq] at hd
    exact hd.1
  · intro hr
    refine launches_chain _ unixInRange flows hnd flow hf ticks unixInRange_zeroTime hr ?_
    intro currentUnix lastUnix number hc hl hd
    unfold isDue at hd
    simp only [Bool.and_eq_true, decide_eq_true_eq] at hd
    rw [wrapInt64_sub _ _ hc hl] at hd
    exact hd.1

/-- C5, at two flows and four ticks. -/
theorem launches_spaced_witness :
    ([unlimitedFlow, cappedFlow].map Flow.UUID).Nodup ∧ cappedFlow ∈ [unlimitedFlow, cappedFlow]
    ∧ List.Chain' (fun t1 t2 => wrapInt64 (t2 - t1) > cappedFlow.Interval)
      (launchTimes (RunApp [unlimitedFlow, cappedFlow] (ticksAt 0 [1000, 1030, 1061, 1062]))
        cappedFlow.UUID)
    ∧ ((∀ t ∈ ticksAt 0 [1000, 1030, 1061, 1062], unixInRange t.currentUnix) →
        List.Chain' (fun t1 t2 => t2 - t1 > cappedFlow.Interval)
          (launchTimes (RunApp [unlimitedFlow, cappedFlow] (ticksAt 0 [1000, 1030, 1061, 1062]))
            cappedFlow.UUID)) :=
  ⟨by decide, by decide,
    launches_spaced [unlimitedFlow, cappedFlow] (by decide) cappedFlow (by decide)
      (ticksAt 0 [1000, 1030, 1061, 1062])⟩

/-- The clock readings of the example are in range. -/
theorem example_ticks_in_range :
    ∀ t ∈ ticksAt 0 [1000, 1030, 1061, 1062], unixInRange t.currentUnix := by
  intro t ht
  simp only [ticksAt, List.map_cons, List.map_nil, List.mem_cons, List.mem_singleton,
    List.not_mem_nil, or_false] at ht
  rcases ht with h | h | h | h <;> subst h <;> decide

/-- C5, the same run evaluated: the flow is launched at 1000 and at 1061. -/
theorem launches_spaced_example :
    launchTimes (RunApp [unlimitedFlow, cappedFlow] (ticksAt 0 [1000, 1030, 1061, 1062]))
      cappedFlow.UUID = [1000, 1061] := by
  decide

/-- C6: with a run counter that starts at zero and is raised by one at each launch, the loop
launches a flow with `Number = N > 0` at most `N` times, over any sequence of ticks. -/
theorem launches_bounded (flows : List Flow) (hnd : (flows.map Flow.UUID).Nodup) (flow : Flow)
    (hf : flow ∈ flows) (hN : 0 < flow.Number) (clock : List Int) :
    ((launchTimes (RunAppCounted flows clock) flow.UUID).length : Int) ≤ flow.Number := by
  unfold RunAppCounted
  refine foldl_invariant (fun st => ((launchTimes st flow.UUID).length : Int) ≤ flow.Number)
    (countedTick flows) clock ?_ _ (by simp [launchTimes, Scheduler.initial]; omega)
  intro st t _ hst
  unfold countedTick
  refine foldl_invariant (fun st => ((launchTimes st flow.UUID).length : Int) ≤ flow.Number)
    _ flows ?_ _ hst
  intro st' g hg hst'
  rw [flowIter_launchTimes]
  by_cases hdue : isDue t (st'.flowsStates g.UUID) (runCounter st' g) g = true
      ∧ g.UUID = flow.UUID
  · rw [if_pos hdue]
    obtain ⟨hd, hu⟩ := hdue
    have hgf := flow_unique flows hnd flow g hf hg hu
    subst hgf
    unfold isDue runCounter at hd
    simp only [Bool.and_eq_true, decide_eq_true_eq] at hd
    rw [List.length_append, List.length_singleton]
    push_cast
    omega
  · rw [if_neg hdue]
    exact hst'

/-- C6, at a flow with `Number = 2` and five ticks far apart. -/
theorem launches_bounded_witness :
    ((launchTimes (RunAppCounted [unlimitedFlow, cappedFlow] [1000, 2000, 3000, 4000, 5000])
      cappedFlow.UUID).length : Int) ≤ cappedFlow.Number :=
  launches_bounded [unlimitedFlow, cappedFlow] (by decide) cappedFlow (by decide) (by decide)
    [1000, 2000, 3000, 4000, 5000]

set_option maxRecDepth 8000 in
/-- C6, the same run evaluated: the flow is launched at 1000 and at 2000 and no more. -/
theorem launches_bounded_example :
    launchTimes (RunAppCounted [unlimitedFlow, cappedFlow] [1000, 2000, 3000, 4000, 5000])
      cappedFlow.UUID = [1000, 2000] := by
  decide

end Gosquito
